import Mathlib

/-!
Verification of the breast-MRI preprocessing pipeline control logic
(`breast_mri_prep_func.py`): series matching, registration orchestration,
masking, bias correction and normalization.

The embedding models:
- the filesystem as a list of existing paths (`Fs`), with external tools
  (dcm2niix, ANTs registration / apply-transforms, N4, FSL) modelled as
  deterministic effects that create their documented output files;
- the per-case series dictionary (the "case bundle") as an association
  list from role name to a `Role` record whose `Option` fields model the
  presence or absence of the corresponding Python dict keys;
- Python `KeyError` propagation as `Except String`;
- numpy voxel arrays as lists of rationals (exact arithmetic).
-/

deriving instance DecidableEq for Except

namespace BreastPrep

/-! ## Filesystem model -/

/-- The filesystem is the set of existing regular files, as a list of paths. -/
abbrev Fs : Type := List String

/-- Model of `os.path.isfile`. -/
def isfile (fs : Fs) (p : String) : Bool := fs.contains p

/-- Effect of an external tool creating file `p` (no-op if it exists). -/
def addFile (fs : Fs) (p : String) : Fs :=
  if isfile fs p then fs else p :: fs

/-! ## Path-string helpers (models of `os.path` / `str` operations) -/

/-- Characters before the first occurrence of `sep` (the whole list when
`sep` does not occur). -/
def beforeFirstL (sep : List Char) : List Char → List Char
  | [] => []
  | c :: rest =>
    if sep.isPrefixOf (c :: rest) then [] else c :: beforeFirstL sep rest

/-- Characters before the last occurrence of `sep`, or `none` when `sep`
does not occur. -/
def beforeLastAux (sep : List Char) : List Char → Option (List Char)
  | [] => none
  | c :: rest =>
    match beforeLastAux sep rest with
    | some r => some (c :: r)
    | none => if sep.isPrefixOf (c :: rest) then some [] else none

/-- Does `sub` occur as a contiguous sublist? -/
def containsL (sub : List Char) : List Char → Bool
  | [] => sub.isEmpty
  | c :: rest => sub.isPrefixOf (c :: rest) || containsL sub rest

/-- Model of `os.path.basename`: the component after the last slash. -/
def basename (p : String) : String :=
  ⟨(p.data.reverse.takeWhile fun c => c ≠ '/').reverse⟩

/-- Model of `os.path.dirname`: everything before the last slash. -/
def dirname (p : String) : String :=
  ⟨((p.data.reverse.dropWhile fun c => c ≠ '/').drop 1).reverse⟩

/-- Model of `os.path.join` for a relative second component. -/
def pathJoin (a b : String) : String := a ++ "/" ++ b

/-- Model of Python `s.split(sep)[0]`: the part before the first `sep`. -/
def splitHead (s sep : String) : String := ⟨beforeFirstL sep.data s.data⟩

/-- Model of Python `s.rsplit(sep, 1)[0]`: the part before the last `sep`
(the whole string when `sep` does not occur). -/
def rsplit1 (s sep : String) : String :=
  match beforeLastAux sep.data s.data with
  | some r => ⟨r⟩
  | none => s

/-- Model of Python `sub in s` (substring containment). -/
def containsSub (s sub : String) : Bool := containsL sub.data s.data

/-- Model of Python `s.endswith(suffix)`. -/
def endsW (s suffix : String) : Bool := suffix.data.isSuffixOf s.data

/-! ## Python `sorted` on strings -/

/-- Strict lexicographic comparison on code points (Python `str <`). -/
def charsLt : List Char → List Char → Bool
  | [], [] => false
  | [], _ :: _ => true
  | _ :: _, [] => false
  | a :: as, b :: bs => a < b || (a = b && charsLt as bs)

/-- Model of Python `a < b` on strings. -/
def pyStrLt (a b : String) : Bool := charsLt a.data b.data

/-- Model of Python `s.lower()`. -/
def lowerS (s : String) : String := ⟨s.data.map Char.toLower⟩

/-- Insert a string into an ascending list (strict lexicographic `<`). -/
def sortedInsert (x : String) : List String → List String
  | [] => [x]
  | y :: ys => if pyStrLt x y then x :: y :: ys else y :: sortedInsert x ys

/-- Model of Python `sorted` on a list of strings. -/
def pySorted (l : List String) : List String := l.foldr sortedInsert []

/-! ## Case-bundle data model

Each role entry of the series dictionary is a Python dict; `Option` fields
model presence/absence of the corresponding keys. -/

/-- Value of the "reg" key: Python `False` or a mode / role-name string. -/
inductive RegV
  | b (x : Bool)
  | s (x : String)
  deriving DecidableEq

/-- Python truthiness of a "reg" value (`False` and `""` are falsy). -/
def RegV.truthy : RegV → Bool
  | .b x => x
  | .s x => x ≠ ""

/-- Truthiness of an optional "reg" value (`"reg" not in keys` is falsy). -/
def truthyOpt : Option RegV → Bool
  | none => false
  | some v => v.truthy

/-- Value of the "dirs" key: a directory string on match, a Python list in
the no-match branch of `filter_series`. -/
inductive DirsV
  | str (s : String)
  | lst (l : List String)
  deriving DecidableEq

/-- A representative DICOM header, restricted to the attributes the matcher
reads.  `ImagesInAcquisition = none` models a missing attribute.
`AcquisitionTime`: outer `none` models a missing attribute, inner `none`
models a value that `float()` cannot parse. -/
structure Hdr where
  ImagesInAcquisition : Option Int := none
  AcquisitionTime : Option (Option ℚ) := none
  deriving DecidableEq

/-- Value of the "hdrs" key of a role: one header on match, the empty list
in the no-match branch of `filter_series`. -/
inductive HdrsV
  | hdr (h : Hdr)
  | emptyL
  deriving DecidableEq

/-- One role entry of the series dictionary (`srs_dict[name]`).  Field names
follow the Python dict keys; `matchOr` / `matchNot` stand for the "or" /
"not" keys. -/
structure Role where
  matchOr : Option (List (List String)) := none
  matchNot : Option (List String) := none
  filename : Option String := none
  reg : Option RegV := none
  reg_target : Option String := none
  reg_moving : Option String := none
  reg_last : Option Bool := none
  interp : Option String := none
  bias : Option Bool := none
  filename_reg : Option String := none
  transform : Option String := none
  filename_masked : Option String := none
  filename_bias : Option String := none
  filename_norm : Option String := none
  dicoms : Option (List String) := none
  hdrs : Option HdrsV := none
  series : Option String := none
  dirs : Option DirsV := none
  deriving DecidableEq

/-- The case bundle: role name to role entry, in insertion (catalog) order.
The "info" entry is modelled as a `Role` whose `filename` is `"None"`; its
`dcmdir` / `id` payload is passed to the stage functions as parameters. -/
abbrev Bundle : Type := List (String × Role)

/-- Dict lookup (first binding wins, as in a Python dict with unique keys). -/
def lookupRole : Bundle → String → Option Role
  | [], _ => none
  | (k, r) :: rest, key => if k = key then some r else lookupRole rest key

/-- In-place mutation of one role entry (`srs_dict[key].update(...)`). -/
def updateRole : Bundle → String → (Role → Role) → Bundle
  | [], _, _ => []
  | (k0, r0) :: rest, key, f =>
      if k0 = key then (k0, f r0) :: updateRole rest key f
      else (k0, r0) :: updateRole rest key f

/-- The role names, in insertion (catalog) order. -/
def keysOf (d : Bundle) : List String := d.map Prod.fst

/-! ### Basic bundle lemmas -/

theorem lookup_updateRole_self (d : Bundle) (k : String) (f : Role → Role) :
    lookupRole (updateRole d k f) k = (lookupRole d k).map f := by
  induction d with
  | nil => rfl
  | cons p rest ih =>
    obtain ⟨k0, r0⟩ := p
    by_cases h : k0 = k <;> simp [updateRole, lookupRole, h, ih]

theorem lookup_updateRole_other (d : Bundle) (k k' : String) (f : Role → Role)
    (h : k' ≠ k) : lookupRole (updateRole d k f) k' = lookupRole d k' := by
  induction d with
  | nil => rfl
  | cons p rest ih =>
    obtain ⟨k0, r0⟩ := p
    by_cases hk : k0 = k
    · subst hk
      have hne : ¬ k0 = k' := fun he => h (he ▸ rfl)
      simp [updateRole, lookupRole, hne, ih]
    · by_cases hk' : k0 = k' <;> simp [updateRole, lookupRole, hk, hk', h, ih]

theorem keysOf_updateRole (d : Bundle) (k : String) (f : Role → Role) :
    keysOf (updateRole d k f) = keysOf d := by
  induction d with
  | nil => rfl
  | cons p rest ih =>
    obtain ⟨k0, r0⟩ := p
    by_cases h : k0 = k <;> simp [updateRole, keysOf, h] <;> exact ih

theorem mem_keys_of_lookup (d : Bundle) (k : String) (r : Role)
    (h : lookupRole d k = some r) : k ∈ keysOf d := by
  induction d with
  | nil => simp [lookupRole] at h
  | cons p rest ih =>
    obtain ⟨k0, r0⟩ := p
    by_cases hk : k0 = k
    · subst hk
      simp [keysOf]
    · simp only [lookupRole, if_neg hk] at h
      simp only [keysOf, List.map_cons, List.mem_cons]
      exact Or.inr (ih h)

/-! ## `make_serdict`: atlas substitution and the "info" entry -/

/-- The "info" entry added by `make_serdict`; its `filename` key is the
string `"None"`.  (Its `dcmdir` / `id` strings are passed to the stage
functions as explicit parameters.) -/
def infoRole : Role := { filename := some "None" }

/-- The atlas substitution of `make_serdict`: a role whose `reg_target` is
the literal string `"atlas"` has it replaced by the caller-supplied atlas
path. -/
def substAtlas (reg_atlas : String) (r : Role) : Role :=
  if r.reg_target = some "atlas" then { r with reg_target := some reg_atlas } else r

/-- Model of `make_serdict` (without file I/O): substitute the atlas
target in every role, then append the "info" entry. -/
def make_serdict (reg_atlas : String) (sdict : Bundle) : Bundle :=
  (sdict.map fun p => (p.1, substAtlas reg_atlas p.2)) ++ [("info", infoRole)]

/-! ## Role ordering computed by `reg_series` -/

/-- First ordering loop of `reg_series`: iterate `sorted(ser_dict.keys())`
and `insert(0, key)` when the role's `reg_target` equals the literal string
`"atlas"`, else `append(key)`. -/
def atlasFirstOrder (d : Bundle) : List String :=
  (pySorted (keysOf d)).foldl
    (fun acc key =>
      if (lookupRole d key).bind Role.reg_target = some "atlas" then key :: acc
      else acc ++ [key])
    []

/-- Model of `"reg_last" in ser_dict[key] and ser_dict[key]["reg_last"]`. -/
def regLastOf (d : Bundle) (key : String) : Bool :=
  match (lookupRole d key).bind Role.reg_last with
  | some true => true
  | _ => false

/-- Second ordering loop of `reg_series`: roles flagged `reg_last` are
appended after all others (the source builds `tmp` and `last` by one pass
of appends and then concatenates, which is the stable filter split). -/
def regLastSplit (d : Bundle) (keys : List String) : List String :=
  keys.filter (fun k => !(regLastOf d k)) ++ keys.filter (regLastOf d)

/-- The processing order `sorted_keys` computed at the top of `reg_series`. -/
def sortedKeysOf (d : Bundle) : List String :=
  regLastSplit d (atlasFirstOrder d)

/-! ## Series matcher (`substr_list`, tie-break loop, `filter_series`)

Regex matching (`re.search`) is an external-library boundary: it is passed
in as a function `search : pattern → target → Bool`. -/

/-- Model of `substr_list`: indices of all series whose description
matches at least one AND-group of `substrs` (every pattern of the group
matches) and no pattern of `substrnot`.  The source appends each matching
index once, in ascending index order. -/
def substr_list (search : String → String → Bool) (strings : List String)
    (substrs : List (List String)) (substrnot : List String) : List Nat :=
  (List.range strings.length).filter fun ind =>
    let string := strings.getD ind ""
    substrs.any (fun substrlist => substrlist.all fun item => search item string) &&
      !(substrnot.any fun item2 => search item2 string)

/-- Does a description contain "repeat" or "redo" (case-insensitive)? -/
def isRedo (s : String) : Bool :=
  containsSub (lowerS s) "repeat" || containsSub (lowerS s) "redo"

/-- The redo/repeat pre-filter of `filter_series`: if any candidate's
description contains "repeat" or "redo", restrict to those candidates. -/
def redoFilter (series : List String) (inds : List Nat) : List Nat :=
  let redo_inds := inds.filter fun x => isRedo (series.getD x "")
  if redo_inds.isEmpty then inds else redo_inds

/-- One iteration of the keeper loop of `filter_series`: candidate `i`
replaces keeper `k` if it has strictly more images, or the same number of
images and a strictly later acquisition time (both times parseable as
numbers); any comparison with a missing attribute or an unparsable time
keeps the current keeper. -/
def keeperStep (hdrs : List Hdr) (k i : Nat) : Nat :=
  let hi := hdrs.getD i {}
  let hk := hdrs.getD k {}
  match hi.ImagesInAcquisition, hk.ImagesInAcquisition with
  | some ci, some ck =>
    if ci > ck then i
    else if ci = ck then
      match hi.AcquisitionTime, hk.AcquisitionTime with
      | some (some ti), some (some tk) => if ti > tk then i else k
      | _, _ => k
    else k
  | _, _ => k

/-- The keeper loop of `filter_series`: the first candidate is the initial
keeper, and each later candidate is compared in original index order. -/
def pickKeeper (hdrs : List Hdr) : List Nat → Option Nat
  | [] => none
  | i :: rest => some (rest.foldl (keeperStep hdrs) i)

/-- Keeper selection of `filter_series`: a single candidate is chosen
directly; otherwise the redo/repeat filter is applied and the keeper loop
runs on the remaining candidates. -/
def chooseKeeper (series : List String) (hdrs : List Hdr) (inds : List Nat) :
    Option Nat :=
  match inds with
  | [] => none
  | [i] => some i
  | _ => pickKeeper hdrs (redoFilter series inds)

/-- The no-match record of `filter_series`: empty dicoms and headers, the
series string "None", and — in the bundle — the empty list for "dirs". -/
def noMatchUpd (r0 : Role) : Role :=
  { r0 with
    dicoms := some []
    hdrs := some .emptyL
    series := some "None"
    dirs := some (.lst []) }

/-- Per-role body of the `filter_series` loop.  Only roles providing both
"or" and "not" criteria are searched.  On a match the winning series data
is recorded; with no match the role records empty dicoms and headers, the
series string "None" and — in the bundle — an empty list for "dirs"
(while the parallel local list `new_dirs` receives the string "None"). -/
def filterSearch (search : String → String → Bool) (dicoms : List (List String))
    (hdrs : List Hdr) (series : List String) (dirs : List String)
    (d : Bundle) (srs : String) (orc : List (List String)) (notc : List String) :
    Bundle :=
  match chooseKeeper series hdrs (substr_list search series orc notc) with
  | some keeper =>
    updateRole d srs fun r0 =>
      { r0 with
        dicoms := some (dicoms.getD keeper [])
        hdrs := some (.hdr (hdrs.getD keeper {}))
        series := some (series.getD keeper "")
        dirs := some (.str (dirs.getD keeper "")) }
  | none => updateRole d srs noMatchUpd

/-- The `filter_series` body once the role's criteria are in hand. -/
def filterCore (search : String → String → Bool) (dicoms : List (List String))
    (hdrs : List Hdr) (series : List String) (dirs : List String)
    (d : Bundle) (srs : String) (r : Role) : Bundle :=
  match r.matchOr, r.matchNot with
  | some orc, some notc => filterSearch search dicoms hdrs series dirs d srs orc notc
  | _, _ => d

/-- The `filter_series` body dispatching on the role's presence. -/
def filterRoleStep (search : String → String → Bool) (dicoms : List (List String))
    (hdrs : List Hdr) (series : List String) (dirs : List String)
    (d : Bundle) (srs : String) : Bundle :=
  match lookupRole d srs with
  | none => d
  | some r => filterCore search dicoms hdrs series dirs d srs r

/-- Model of `filter_series`: fold the per-role body over all roles in
catalog order, returning the updated bundle (the source's parallel `new_*`
lists are local and discarded). -/
def filter_series (search : String → String → Bool) (dicoms : List (List String))
    (hdrs : List Hdr) (series : List String) (dirs : List String)
    (d : Bundle) : Bundle :=
  (keysOf d).foldl (filterRoleStep search dicoms hdrs series dirs) d

/-! ## Registration orchestrator (`reg_series` and helpers)

The six geometric registration routines (`trans_reg`, `rigid_reg`,
`affine_reg`, `fast_affine_reg`, `diffeo_reg`, `fast_diffeo_reg`) differ
only in the fixed ANTs parameter bundle they pass to the external engine;
they share the output-prefix naming scheme, the transform-file cache guard
and the returned transform path, so they are embedded as one routine
tagged by the mode.  External invocations are recorded in a call log. -/

/-- A record of one external call: a registration-engine run or a
transform application. -/
inductive Call
  | regRun (mode : String) (moving template trnsfm : String)
  | applyRun (moving reference trnsfm output : String)
  deriving DecidableEq

/-- State threaded through `reg_series`: the filesystem, the case bundle
and the log of external calls issued so far (most recent first). -/
structure RegSt where
  fs : Fs
  dict : Bundle
  calls : List Call
  deriving DecidableEq

/-- The six geometric registration modes of `reg_series`. -/
inductive GeoMode
  | trans | rigid | affine | fast_affine | diffeo | fast_diffeo
  deriving DecidableEq

/-- The "reg" string selecting each mode. -/
def GeoMode.str : GeoMode → String
  | .trans => "trans"
  | .rigid => "rigid"
  | .affine => "affine"
  | .fast_affine => "fast_affine"
  | .diffeo => "diffeo"
  | .fast_diffeo => "fast_diffeo"

/-- Whether the mode's loop body checks that the moving and template files
exist before registering: the affine, fast_affine, diffeo and fast_diffeo
loops do; the trans and rigid loops do not. -/
def GeoMode.guarded : GeoMode → Bool
  | .trans => false
  | .rigid => false
  | _ => true

/-- `outprefix` shared by all six registration routines:
`os.path.join(work_dir, moving_name + "_2_" + template_name + "_")` with
`*_name = os.path.basename(*_nii).split(".")[0]`. -/
def regOutPre (work_dir moving_nii template_nii : String) : String :=
  pathJoin work_dir
    (splitHead (basename moving_nii) "." ++ "_2_" ++ splitHead (basename template_nii) "." ++ "_")

/-- The composite transform path `outprefix + "Composite.h5"`. -/
def transName (work_dir moving_nii template_nii : String) : String :=
  regOutPre work_dir moving_nii template_nii ++ "Composite.h5"

/-- Shared body of the six registration routines: if the transform file
does not exist or `rep` is set, the external engine runs (creating the
transform file); otherwise the existing transform is reused.  Returns the
transform path. -/
def runReg (mode : GeoMode) (st : RegSt) (work_dir moving_nii template_nii : String)
    (rep : Bool) : RegSt × String :=
  let trnsfm := transName work_dir moving_nii template_nii
  if !(isfile st.fs trnsfm) || rep then
    ({ st with
        fs := addFile st.fs trnsfm
        calls := .regRun mode.str moving_nii template_nii trnsfm :: st.calls }, trnsfm)
  else (st, trnsfm)

/-- Output path of `ants_apply` for one moving image:
`os.path.join(work_dir, os.path.basename(mvng).split(".nii")[0] + "_w.nii.gz")`. -/
def antsApplyName (work_dir mvng : String) : String :=
  pathJoin work_dir (splitHead (basename mvng) ".nii" ++ "_w.nii.gz")

/-- Body of the `ants_apply` loop for one moving image: resample against
`reference_nii` with the given transform unless the output already exists
and `rep` is false.  Returns the output path. -/
def ants_apply1 (st : RegSt) (work_dir mvng reference_nii trnsfm : String)
    (rep : Bool) : RegSt × String :=
  let output_nii := antsApplyName work_dir mvng
  if !(isfile st.fs output_nii) || rep then
    ({ st with
        fs := addFile st.fs output_nii
        calls := .applyRun mvng reference_nii trnsfm output_nii :: st.calls }, output_nii)
  else (st, output_nii)

/-- Model of `ants_apply` on a list of moving images sharing one transform
(filesystem effect only, as used by the masking/idempotence analysis). -/
def ants_apply_list (st : RegSt) (work_dir : String) (moving_nii : List String)
    (reference_nii trnsfm : String) (rep : Bool) : RegSt :=
  moving_nii.foldl (fun s mvng => (ants_apply1 s work_dir mvng reference_nii trnsfm rep).1) st

/-- First per-role loop of `reg_series`: if the role has no "filename" key
it is set to "None"; then, if the filename is "None" or no (truthy)
registration was requested, `filename_reg` is the unregistered filename,
`transform` is "None" and `reg` is normalized to `False`. -/
def regInitRole (r : Role) : Role :=
  let r := if r.filename = none then { r with filename := some "None" } else r
  if r.filename = some "None" || !(truthyOpt r.reg) then
    { r with filename_reg := r.filename, transform := some "None", reg := some (.b false) }
  else r

/-- The first loop of `reg_series` over `sorted_keys`. -/
def regInitPass (d : Bundle) (keys : List String) : Bundle :=
  keys.foldl (fun d k => updateRole d k regInitRole) d

/-- Target resolution shared by the six geometric loops: if `reg_target`
is an existing file use it, otherwise treat it as a role name and use that
role's `filename_reg`.  Missing keys raise `KeyError`. -/
def resolveTemplate (fs : Fs) (d : Bundle) (r : Role) : Except String String :=
  match r.reg_target with
  | none => .error "KeyError: reg_target"
  | some tgt =>
    if isfile fs tgt then .ok tgt
    else
      match lookupRole d tgt with
      | none => .error "KeyError: reg_target role"
      | some tr =>
        match tr.filename_reg with
        | none => .error "KeyError: filename_reg"
        | some f => .ok f

/-- Surrogate moving-image resolution shared by the six geometric loops:
`(moving for registration, moving for application)`. -/
def movingOf (r : Role) : String × String :=
  match r.reg_moving with
  | some m => (m, r.filename.getD "None")
  | none => (r.filename.getD "None", r.filename.getD "None")

/-- Successful body of a geometric loop iteration: compute (or reuse) the
transform for the registration-moving image, apply it to the application
moving image, and record the warped output and transform handle. -/
def geoRun (mode : GeoMode) (work_dir : String) (rep : Bool) (st : RegSt)
    (ser : String) (movingr movinga template : String) : RegSt :=
  let p1 := runReg mode st work_dir movingr template rep
  let p2 := ants_apply1 p1.1 work_dir movinga template p1.2 rep
  { p2.1 with
    dict := updateRole p2.1.dict ser fun r0 =>
      { r0 with filename_reg := some p2.2, transform := some p1.2 } }

/-- Per-role body of one geometric loop of `reg_series`.  For the guarded
modes (affine family) the body silently skips the role when the moving or
template file is missing on disk; the trans and rigid loops have no such
check. -/
def geoCore (mode : GeoMode) (work_dir : String) (rep : Bool) (st : RegSt)
    (ser : String) (r : Role) : Except String RegSt :=
  if r.reg = some (.s mode.str) then
    match resolveTemplate st.fs st.dict r with
    | .error e => .error e
    | .ok template =>
      if mode.guarded && !(isfile st.fs (movingOf r).1 && isfile st.fs template) then
        .ok st
      else
        .ok (geoRun mode work_dir rep st ser (movingOf r).1 (movingOf r).2 template)
  else .ok st

/-- The geometric-loop body dispatching on the role's presence. -/
def geoStep (mode : GeoMode) (work_dir : String) (rep : Bool) (st : RegSt)
    (ser : String) : Except String RegSt :=
  match lookupRole st.dict ser with
  | none => .ok st
  | some r => geoCore mode work_dir rep st ser r

/-- Error-propagating fold of a per-role body over the key order
(a raised `KeyError` aborts `reg_series`). -/
def passFold {α : Type} (step : α → String → Except String α) :
    List String → α → Except String α
  | [], st => .ok st
  | k :: ks, st =>
    match step st k with
    | .error e => .error e
    | .ok st1 => passFold step ks st1

/-- Successful body of a borrowed-transform iteration: apply the source
role's cached transform to this role's filename, with the source role's
registered file as reference, and record the borrowed handle. -/
def borrowRun (work_dir : String) (rep : Bool) (st : RegSt) (ser : String)
    (moving template transforms : String) : RegSt :=
  let p := ants_apply1 st work_dir moving template transforms rep
  { p.1 with
    dict := updateRole p.1.dict ser fun r0 =>
      { r0 with filename_reg := some p.2, transform := some transforms } }

/-- Read of the source role's `transform` / `filename_reg` keys and this
role's `filename` key: any missing key (a caught `KeyError`) leaves the
state unchanged; otherwise the cached transform is applied. -/
def borrowApply (work_dir : String) (rep : Bool) (st : RegSt) (ser : String)
    (tr fr mv : Option String) : RegSt :=
  match tr, fr, mv with
  | some transforms, some template, some moving =>
    borrowRun work_dir rep st ser moving template transforms
  | _, _, _ => st

/-- Attempt to borrow role `m`'s transform (continued): dispatch on the
source role's presence. -/
def borrowTry (work_dir : String) (rep : Bool) (keys : List String) (st : RegSt)
    (ser : String) (m : String) (rFilename : Option String) : RegSt :=
  if keys.contains m then
    match lookupRole st.dict m with
    | none => st
    | some ra => borrowApply work_dir rep st ser ra.transform ra.filename_reg rFilename
  else st

/-- Per-role body of the final loop of `reg_series` (applying another
role's existing transform): when the role's "reg" value is the name of a
role in `sorted_keys`, that role's cached transform and registered file
are read and applied to this role's filename; any exception (missing key)
is caught and the role is left unchanged. -/
def borrowCore (work_dir : String) (rep : Bool) (keys : List String) (st : RegSt)
    (ser : String) (r : Role) : RegSt :=
  match r.reg with
  | some (.s m) => borrowTry work_dir rep keys st ser m r.filename
  | _ => st

/-- The borrowed-transform body dispatching on the role's presence. -/
def borrowStep (work_dir : String) (rep : Bool) (keys : List String) (st : RegSt)
    (ser : String) : RegSt :=
  match lookupRole st.dict ser with
  | none => st
  | some r => borrowCore work_dir rep keys st ser r

/-- The final loop of `reg_series`. -/
def borrowPass (work_dir : String) (rep : Bool) (keys : List String) (st : RegSt) :
    RegSt :=
  keys.foldl (borrowStep work_dir rep keys) st

/-- Model of `reg_series`: compute `sorted_keys`, normalize non-registered
roles, then run the six mode-staged loops in fixed priority order and
finally the borrowed-transform loop.  `work_dir` is
`os.path.dirname(ser_dict["info"]["dcmdir"])`. -/
def reg_series (work_dir : String) (rep : Bool) (fs : Fs) (d : Bundle) :
    Except String RegSt :=
  passFold (geoStep .trans work_dir rep) (sortedKeysOf d)
      { fs := fs, dict := regInitPass d (sortedKeysOf d), calls := [] } >>= fun st1 =>
  passFold (geoStep .rigid work_dir rep) (sortedKeysOf d) st1 >>= fun st2 =>
  passFold (geoStep .affine work_dir rep) (sortedKeysOf d) st2 >>= fun st3 =>
  passFold (geoStep .fast_affine work_dir rep) (sortedKeysOf d) st3 >>= fun st4 =>
  passFold (geoStep .diffeo work_dir rep) (sortedKeysOf d) st4 >>= fun st5 =>
  passFold (geoStep .fast_diffeo work_dir rep) (sortedKeysOf d) st5 >>= fun st6 =>
  .ok (borrowPass work_dir rep (sortedKeysOf d) st6)

/-! ## Manifest write of `get_series` -/

/-- Filesystem effect of the manifest write at the end of `get_series`:
the series-list file is (re)written only when it does not exist or
`repeat` is set. -/
def seriesListWrite (fs : Fs) (series_file : String) (rep : Bool) : Fs :=
  if !(isfile fs series_file) || rep then addFile fs series_file else fs

/-! ## Masking stage (`breast_mask`) -/

/-- Masked-output name for one role: the `filename_reg` stem (before the
last ".nii") gets suffix "m" when it already ends in "_w", else "_wm". -/
def maskedName (filename_reg : String) : String :=
  let stem := rsplit1 filename_reg ".nii"
  if endsW stem "_w" then stem ++ "m.nii.gz" else stem ++ "_wm.nii.gz"

/-- Per-role body of the mask-application loop of `breast_mask` (runs only
when the mask file exists).  A role without a `filename_reg` key is
skipped; masking runs when `repeat` is set, or when the masked output is
missing and the registered file exists; an existing masked output is
recorded without rerunning. -/
def maskApplyF (rep : Bool) (fs : Fs) (d : Bundle) (sers freg : String) :
    Fs × Bundle :=
  if rep || (!(isfile fs (maskedName freg)) && isfile fs freg) then
    (addFile fs (maskedName freg),
     updateRole d sers fun r0 => { r0 with filename_masked := some (maskedName freg) })
  else if isfile fs (maskedName freg) then
    (fs, updateRole d sers fun r0 => { r0 with filename_masked := some (maskedName freg) })
  else (fs, d)

/-- The mask-application body dispatching on the `filename_reg` key. -/
def maskCore (rep : Bool) (fs : Fs) (d : Bundle) (sers : String) (r : Role) :
    Fs × Bundle :=
  match r.filename_reg with
  | none => (fs, d)
  | some freg => maskApplyF rep fs d sers freg

/-- The mask-application body dispatching on the role's presence. -/
def maskRoleStep (rep : Bool) (st : Fs × Bundle)
    (sers : String) : Fs × Bundle :=
  match lookupRole st.2 sers with
  | none => st
  | some r => maskCore rep st.1 st.2 sers r

/-- Model of `breast_mask`: requires the structural volume
`<id>_T1_w.nii.gz`; if absent the stage no-ops.  CNN inference creates the
mask file only when it does not already exist.  Once the mask file exists,
it is applied to every role. -/
def breast_mask (idno work_dir : String) (rep : Bool) (fs : Fs) (d : Bundle) :
    Fs × Bundle :=
  let t1w := pathJoin work_dir (idno ++ "_T1_w.nii.gz")
  if !(isfile fs t1w) then (fs, d)
  else
    let mask_file := pathJoin work_dir (idno ++ "_breast_mask.nii.gz")
    let fs := if isfile fs mask_file then fs else addFile fs mask_file
    if isfile fs mask_file then
      (keysOf d).foldl (maskRoleStep rep) (fs, d)
    else (fs, d)

/-! ## Bias-correction stage (`bias_correct`) -/

/-- Per-role body of `bias_correct`: roles flagged `bias` are processed;
the role is skipped (nothing recorded) when its masked file or the mask is
missing; otherwise the truncation and N4 steps each run only when their
output is missing or `repeat` is set, and `filename_bias` is recorded in
both branches of the N4 guard. -/
def biasCore (idno work_dir : String) (rep : Bool) (fs : Fs) (d : Bundle)
    (srs : String) (r : Role) : Fs × Bundle :=
  if r.bias = some true then
    let f := pathJoin work_dir (idno ++ "_" ++ srs ++ "_wm.nii.gz")
    let mask := pathJoin work_dir (idno ++ "_combined_brain_mask.nii.gz")
    if !(isfile fs f) then (fs, d)
    else if !(isfile fs mask) then (fs, d)
    else
      let biasfile := rsplit1 f ".nii" ++ "_biasmap.nii.gz"
      let truncated_img := rsplit1 f ".nii" ++ "t.nii.gz"
      let biasimg := rsplit1 truncated_img ".nii" ++ "b.nii.gz"
      let fs1 := if !(isfile fs truncated_img) || rep then addFile fs truncated_img else fs
      let fs2 :=
        if !(isfile fs1 biasimg) || rep then addFile (addFile fs1 biasimg) biasfile else fs1
      (fs2, updateRole d srs fun r0 => { r0 with filename_bias := some biasimg })
  else (fs, d)

/-- The bias-correction body dispatching on the role's presence. -/
def biasRoleStep (idno work_dir : String) (rep : Bool) (st : Fs × Bundle)
    (srs : String) : Fs × Bundle :=
  match lookupRole st.2 srs with
  | none => st
  | some r => biasCore idno work_dir rep st.1 st.2 srs r

/-- Model of `bias_correct` over all roles. -/
def bias_correct (idno work_dir : String) (rep : Bool) (fs : Fs) (d : Bundle) :
    Fs × Bundle :=
  (keysOf d).foldl (biasRoleStep idno work_dir rep) (fs, d)

/-! ## Normalization stage (`norm_niis`) -/

/-- Normalized-output name: `dirname(fn)/basename(fn).split(".")[0] + "n.nii.gz"`. -/
def normName (fn : String) : String :=
  pathJoin (dirname fn) (splitHead (basename fn) "." ++ "n.nii.gz")

/-- Per-role body of `norm_niis`: every role flagged `bias` is normalized;
the read of `ser_dict[srs]["filename_bias"]` is unguarded, so a role whose
bias correction was skipped raises `KeyError`.  The write is guarded by
the output-exists check; `filename_norm` is recorded in both branches. -/
def normCore (rep : Bool) (fs : Fs) (d : Bundle) (srs : String) (r : Role) :
    Except String (Fs × Bundle) :=
  if r.bias = some true then
    match r.filename_bias with
    | none => .error ("KeyError: filename_bias of " ++ srs)
    | some fn =>
      let normname := normName fn
      let fs1 := if !(isfile fs normname) || rep then addFile fs normname else fs
      .ok (fs1, updateRole d srs fun r0 => { r0 with filename_norm := some normname })
  else .ok (fs, d)

/-- The normalization body dispatching on the role's presence. -/
def normRoleStep (rep : Bool) (st : Fs × Bundle) (srs : String) :
    Except String (Fs × Bundle) :=
  match lookupRole st.2 srs with
  | none => .ok st
  | some r => normCore rep st.1 st.2 srs r

/-- Model of `norm_niis` over all roles (a raised `KeyError` aborts the
stage for the whole case). -/
def norm_niis (rep : Bool) (fs : Fs) (d : Bundle) : Except String (Fs × Bundle) :=
  passFold (normRoleStep rep) (keysOf d) (fs, d)

/-! ## Voxelwise numerics (exact-arithmetic model of the numpy code)

Voxel arrays are flattened lists of rationals. -/

/-- Model of `np.mean`. -/
def npMean (l : List ℚ) : ℚ := l.sum / l.length

/-- Model of `np.var` (population variance); `np.std` is its square root. -/
def npVar (l : List ℚ) : ℚ := npMean (l.map fun x => (x - npMean l) ^ 2)

/-- The values at the nonzero voxels (`img[np.nonzero(img)]`). -/
def nonzeroVals (img : List ℚ) : List ℚ := img.filter fun x => x ≠ 0

/-- Voxelwise body of the normalization in `norm_niis`:
`np.where(img != 0., (img - mean) / std, 0.)` with `mean`/`std` computed
over the nonzero voxels only.  Since `np.std` is the square root of the
population variance and is irrational in general, the standard deviation
is the parameter `s`, characterized by `s ^ 2 = npVar (nonzeroVals img)`. -/
def norm_img (s : ℚ) (img : List ℚ) : List ℚ :=
  let m := npMean (nonzeroVals img)
  img.map fun x => if x ≠ 0 then (x - m) / s else 0

/-! ## DWI splitter (`split_dwi`, bvals branch) -/

/-- Model of `np.max` on a nonempty list of b-values. -/
def npMax : List ℚ → ℚ
  | [] => 0
  | x :: xs => xs.foldl max x

/-- Indices with b-value zero (`np.nonzero(bvals == 0)[0]`). -/
def b0_inds (bvals : List ℚ) : List Nat :=
  (List.range bvals.length).filter fun i => bvals.getD i 0 = 0

/-- Indices with maximal b-value (`bvals == np.max(bvals)`). -/
def dwi_max_inds (bvals : List ℚ) : List Nat :=
  (List.range bvals.length).filter fun i => bvals.getD i 0 = npMax bvals

/-- Voxelwise mean across a list of equally-shaped volumes
(`np.mean(img[..., inds], -1)`). -/
def meanVols (vols : List (List ℚ)) : List ℚ :=
  (List.range (vols.headD []).length).map fun i =>
    npMean (vols.map fun v => v.getD i 0)

/-- The volumes at the given temporal indices. -/
def selectVols (vols : List (List ℚ)) (inds : List Nat) : List (List ℚ) :=
  inds.map fun i => vols.getD i []

/-- Model of the bvals-based branch of `split_dwi` on a 4D volume: the B0
output is the voxelwise mean over the zero-b-value indices, the DWI output
the voxelwise mean over the maximal-b-value indices. -/
def split_dwi_imgs (bvals : List ℚ) (vols : List (List ℚ)) :
    List ℚ × List ℚ :=
  (meanVols (selectVols vols (b0_inds bvals)),
   meanVols (selectVols vols (dwi_max_inds bvals)))

/-! ## Generic fold-invariant lemmas -/

theorem foldl_preserve {α : Type} (step : α → String → α) (P : α → Prop) :
    ∀ (l : List String) (a : α), P a → (∀ b x, x ∈ l → P b → P (step b x)) →
      P (l.foldl step a) := by
  intro l
  induction l with
  | nil => intro a h _; exact h
  | cons x xs ih =>
    intro a ha hstep
    exact ih (step a x) (hstep a x (by simp) ha)
      (fun b y hy hb => hstep b y (by simp [hy]) hb)

theorem foldl_establish {α : Type} (step : α → String → α) (P Q : α → Prop)
    (k : String) :
    ∀ (l : List String) (a : α), k ∈ l → P a →
      (∀ b x, x ∈ l → P b → P (step b x)) →
      (∀ b, P b → Q (step b k)) →
      (∀ b x, x ∈ l → Q b → Q (step b x)) →
      Q (l.foldl step a) := by
  intro l
  induction l with
  | nil => intro a hk; exact absurd hk (by simp)
  | cons x xs ih =>
    intro a hk hP hPstep hPQ hQstep
    by_cases hx : x = k
    · subst hx
      have hQ : Q (step a x) := hPQ a hP
      exact foldl_preserve step Q xs (step a x) hQ
        (fun b y hy hb => hQstep b y (by simp [hy]) hb)
    · have hk' : k ∈ xs := by
        rcases List.mem_cons.mp hk with h | h
        · exact absurd h.symm hx
        · exact h
      exact ih (step a x) hk' (hPstep a x (by simp) hP)
        (fun b y hy hb => hPstep b y (by simp [hy]) hb) hPQ
        (fun b y hy hb => hQstep b y (by simp [hy]) hb)

theorem passFold_preserve {α : Type} (step : α → String → Except String α)
    (P : α → Prop) :
    ∀ (l : List String) (a res : α), passFold step l a = .ok res → P a →
      (∀ b x b', x ∈ l → P b → step b x = .ok b' → P b') → P res := by
  intro l
  induction l with
  | nil =>
    intro a res h ha _
    simp [passFold] at h
    exact h ▸ ha
  | cons x xs ih =>
    intro a res h ha hstep
    simp only [passFold] at h
    cases hs : step a x with
    | error e => rw [hs] at h; exact absurd h (by simp)
    | ok a1 =>
      rw [hs] at h
      exact ih a1 res h (hstep a x a1 (by simp) ha hs)
        (fun b y b' hy hb hsb => hstep b y b' (by simp [hy]) hb hsb)

theorem passFold_ok_preserve {α : Type} (step : α → String → Except String α)
    (P : α → Prop) :
    ∀ (l : List String) (a : α), P a →
      (∀ b x, x ∈ l → P b → ∃ b', step b x = .ok b' ∧ P b') →
      ∃ res, passFold step l a = .ok res ∧ P res := by
  intro l
  induction l with
  | nil => intro a ha _; exact ⟨a, rfl, ha⟩
  | cons x xs ih =>
    intro a ha hstep
    obtain ⟨a1, hs, ha1⟩ := hstep a x (by simp) ha
    obtain ⟨res, hres, hPres⟩ := ih a1 ha1
      (fun b y hy hb => hstep b y (by simp [hy]) hb)
    exact ⟨res, by simp only [passFold, hs]; exact hres, hPres⟩

theorem passFold_error {α : Type} (step : α → String → Except String α)
    (P : α → Prop) (k : String) :
    ∀ (l : List String) (a : α), k ∈ l → P a →
      (∀ b x b', x ∈ l → P b → step b x = .ok b' → P b') →
      (∀ b, P b → ∃ e, step b k = .error e) →
      ∃ e, passFold step l a = .error e := by
  intro l
  induction l with
  | nil => intro a hk; exact absurd hk (by simp)
  | cons x xs ih =>
    intro a hk hP hstep herr
    by_cases hx : x = k
    · subst hx
      obtain ⟨e, he⟩ := herr a hP
      exact ⟨e, by simp only [passFold, he]⟩
    · cases hs : step a x with
      | error e => exact ⟨e, by simp only [passFold, hs]⟩
      | ok a1 =>
        have hk' : k ∈ xs := by
          rcases List.mem_cons.mp hk with h | h
          · exact absurd h.symm hx
          · exact h
        obtain ⟨e, he⟩ := ih a1 hk' (hstep a x a1 (by simp) hP hs)
          (fun b y b' hy hb hsb => hstep b y b' (by simp [hy]) hb hsb) herr
        exact ⟨e, by simp only [passFold, hs]; exact he⟩

/-! ## Membership in the computed key order -/

theorem mem_sortedInsert (x y : String) (l : List String) :
    y ∈ sortedInsert x l ↔ y = x ∨ y ∈ l := by
  induction l with
  | nil => simp [sortedInsert]
  | cons z zs ih =>
    by_cases h : pyStrLt x z
    · simp [sortedInsert, h]
    · simp only [sortedInsert, h, Bool.false_eq_true, if_false, List.mem_cons, ih]
      tauto

theorem mem_pySorted (y : String) (l : List String) :
    y ∈ pySorted l ↔ y ∈ l := by
  induction l with
  | nil => simp [pySorted]
  | cons z zs ih =>
    simp only [pySorted, List.foldr_cons] at *
    rw [mem_sortedInsert, ih, List.mem_cons]

theorem mem_atlasFold (dd : Bundle) (y : String) :
    ∀ (l acc : List String),
      y ∈ l.foldl (fun acc key =>
        if (lookupRole dd key).bind Role.reg_target = some "atlas" then key :: acc
        else acc ++ [key]) acc ↔ y ∈ acc ∨ y ∈ l := by
  intro l
  induction l with
  | nil => simp
  | cons z zs ih =>
    intro acc
    by_cases h : (lookupRole dd z).bind Role.reg_target = some "atlas"
    · simp only [List.foldl_cons, if_pos h, ih, List.mem_cons]
      tauto
    · simp only [List.foldl_cons, if_neg h, ih, List.mem_append, List.mem_cons,
        List.mem_singleton]
      tauto

theorem mem_sortedKeysOf (d : Bundle) (k : String) (hk : k ∈ keysOf d) :
    k ∈ sortedKeysOf d := by
  have h1 : k ∈ atlasFirstOrder d := by
    rw [atlasFirstOrder, mem_atlasFold d]
    exact Or.inr ((mem_pySorted k (keysOf d)).mpr hk)
  rw [sortedKeysOf, regLastSplit]
  by_cases h : regLastOf d k
  · exact List.mem_append.mpr (Or.inr (List.mem_filter.mpr ⟨h1, h⟩))
  · exact List.mem_append.mpr (Or.inl (List.mem_filter.mpr ⟨h1, by simp [h]⟩))

/-! ## C5: matcher tie-break

The spec-side description of the tie-break is defined separately
(`specReplaces`, `specPickKeeper`) and proved equal to the code's loop. -/

/-- The acquisition time when the attribute exists and `float()` parses it. -/
def parsedTime (h : Hdr) : Option ℚ := h.AcquisitionTime.bind id

/-- The claim's replacement rule, as stated: a candidate replaces the
keeper iff it has a strictly greater image count, or an equal image count
and a strictly later acquisition time with both times parseable as
numbers; in particular unparsable acquisition times never replace the
keeper. -/
def specReplaces (hi hk : Hdr) : Bool :=
  match hi.ImagesInAcquisition, hk.ImagesInAcquisition with
  | some ci, some ck =>
    decide (ci > ck) ||
      (decide (ci = ck) &&
        match parsedTime hi, parsedTime hk with
        | some ti, some tk => decide (ti > tk)
        | _, _ => false)
  | _, _ => false

/-- One step of the claim's procedure. -/
def specKeeperStep (hdrs : List Hdr) (k i : Nat) : Nat :=
  if specReplaces (hdrs.getD i {}) (hdrs.getD k {}) then i else k

/-- The claim's procedure: iterate candidates in original index order with
the first candidate as initial keeper, applying the replacement rule. -/
def specPickKeeper (hdrs : List Hdr) : List Nat → Option Nat
  | [] => none
  | i :: rest => some (rest.foldl (specKeeperStep hdrs) i)

theorem step_eq_aux (hi hk : Hdr) (k i : Nat) :
    (match hi.ImagesInAcquisition, hk.ImagesInAcquisition with
    | some ci, some ck =>
      if ci > ck then i
      else if ci = ck then
        match hi.AcquisitionTime, hk.AcquisitionTime with
        | some (some ti), some (some tk) => if ti > tk then i else k
        | _, _ => k
      else k
    | _, _ => k) =
    (if specReplaces hi hk then i else k) := by
  rcases hi with ⟨ci?, ti?⟩
  rcases hk with ⟨ck?, tk?⟩
  rcases ci? with _ | ci <;> rcases ck? with _ | ck <;>
    simp only [specReplaces, parsedTime, Option.bind] <;> try simp
  by_cases hgt : ci > ck
  · simp [hgt]
  · by_cases heq : ci = ck
    · subst heq
      rcases ti? with _ | (_ | ti) <;> rcases tk? with _ | (_ | tk) <;>
        simp [hgt]
    · simp [hgt, heq]

theorem keeperStep_eq_spec (hdrs : List Hdr) (k i : Nat) :
    keeperStep hdrs k i = specKeeperStep hdrs k i := by
  unfold keeperStep specKeeperStep
  exact step_eq_aux (hdrs.getD i {}) (hdrs.getD k {}) k i

/-- C5: the matcher's tie-break among candidate series is deterministic
and equals the procedure stated by the spec: iterating candidates in
original index order with the first candidate as initial keeper, a
candidate with strictly greater image count replaces the keeper; one with
equal image count and strictly later acquisition time (both parseable as
numbers) replaces the keeper; with unparsable acquisition times the
earlier-indexed candidate remains keeper. -/
theorem C5_tiebreak_deterministic (hdrs : List Hdr) (inds : List Nat) :
    pickKeeper hdrs inds = specPickKeeper hdrs inds := by
  cases inds with
  | nil => rfl
  | cons i rest =>
    simp only [pickKeeper, specPickKeeper]
    have h : keeperStep hdrs = specKeeperStep hdrs :=
      funext fun a => funext fun b => keeperStep_eq_spec hdrs a b
    rw [h]

/-! ## C8: DWI splitter on b-values `[0, 0, 1000, 1000]` -/

/-- C8: for a 4-volume 4D diffusion series with b-values
`[0, 0, 1000, 1000]`, the splitter's B0 output is the voxelwise mean of
the volumes at indices 0 and 1 (where the b-value is zero) and its DWI
output is the voxelwise mean of the volumes at indices 2 and 3 (where the
b-value attains its maximum). -/
theorem C8_split_dwi_bvals (v0 v1 v2 v3 : List ℚ) :
    split_dwi_imgs [0, 0, 1000, 1000] [v0, v1, v2, v3] =
      (meanVols [v0, v1], meanVols [v2, v3]) := by
  have h0 : b0_inds [0, 0, 1000, 1000] = [0, 1] := by decide
  have h1 : dwi_max_inds [0, 0, 1000, 1000] = [2, 3] := by decide
  simp [split_dwi_imgs, h0, h1, selectVols]

/-! ## C6: no-match recording in the case bundle -/

theorem filterCore_lookup_other (search : String → String → Bool)
    (dicoms : List (List String)) (hdrs : List Hdr) (series : List String)
    (dirs : List String) (b : Bundle) (x srs : String) (rx : Role)
    (hx : srs ≠ x) :
    lookupRole (filterCore search dicoms hdrs series dirs b x rx) srs =
      lookupRole b srs := by
  unfold filterCore filterSearch
  split
  · split
    · exact lookup_updateRole_other b x srs _ hx
    · exact lookup_updateRole_other b x srs _ hx
  · rfl

theorem filterRoleStep_lookup_other (search : String → String → Bool)
    (dicoms : List (List String)) (hdrs : List Hdr) (series : List String)
    (dirs : List String) (b : Bundle) (x srs : String) (hx : srs ≠ x) :
    lookupRole (filterRoleStep search dicoms hdrs series dirs b x) srs =
      lookupRole b srs := by
  unfold filterRoleStep
  cases lookupRole b x with
  | none => rfl
  | some rx => exact filterCore_lookup_other search dicoms hdrs series dirs b x srs rx hx

theorem filterRoleStep_self_nomatch (search : String → String → Bool)
    (dicoms : List (List String)) (hdrs : List Hdr) (series : List String)
    (dirs : List String) (b : Bundle) (srs : String) (rr : Role)
    (oc : List (List String)) (nc : List String)
    (hl : lookupRole b srs = some rr) (ho : rr.matchOr = some oc)
    (hn : rr.matchNot = some nc)
    (hempty : substr_list search series oc nc = []) :
    lookupRole (filterRoleStep search dicoms hdrs series dirs b srs) srs =
      some (noMatchUpd rr) := by
  unfold filterRoleStep
  rw [hl]
  show lookupRole (filterCore search dicoms hdrs series dirs b srs rr) srs = _
  unfold filterCore
  rw [ho, hn]
  show lookupRole (filterSearch search dicoms hdrs series dirs b srs oc nc) srs = _
  unfold filterSearch
  rw [hempty]
  show lookupRole (updateRole b srs noMatchUpd) srs = _
  rw [lookup_updateRole_self, hl]
  rfl

/-- C6 (amended): for every role whose match criteria match no series, the
role is recorded in the case bundle with empty dicoms and headers and the
series string "None" — but the recorded "dirs" value is the empty list,
not the string "None" (the string "None" is only appended to the local
`new_dirs` list, which `filter_series` discards); the outcome is a normal
return, not an error. -/
theorem C6_nomatch_recording (search : String → String → Bool)
    (dicoms : List (List String)) (hdrs : List Hdr) (series : List String)
    (dirs : List String) (d : Bundle) (srs : String) (r : Role)
    (oc : List (List String)) (nc : List String)
    (hl : lookupRole d srs = some r) (ho : r.matchOr = some oc)
    (hn : r.matchNot = some nc)
    (hempty : substr_list search series oc nc = []) :
    ∃ r1, lookupRole (filter_series search dicoms hdrs series dirs d) srs = some r1 ∧
      r1.dicoms = some [] ∧ r1.hdrs = some .emptyL ∧ r1.series = some "None" ∧
      r1.dirs = some (.lst []) := by
  have hk : srs ∈ keysOf d := mem_keys_of_lookup d srs r hl
  let step := filterRoleStep search dicoms hdrs series dirs
  let P : Bundle → Prop := fun b =>
    ∃ rr, lookupRole b srs = some rr ∧ rr.matchOr = some oc ∧ rr.matchNot = some nc
  let Q : Bundle → Prop := fun b =>
    ∃ rr, lookupRole b srs = some rr ∧ rr.matchOr = some oc ∧ rr.matchNot = some nc ∧
      rr.dicoms = some [] ∧ rr.hdrs = some .emptyL ∧ rr.series = some "None" ∧
      rr.dirs = some (.lst [])
  have hPstep : ∀ b x, P b → P (step b x) := by
    intro b x ⟨rr, hlb, hob, hnb⟩
    by_cases hx : srs = x
    · subst hx
      refine ⟨noMatchUpd rr, ?_, hob, hnb⟩
      exact filterRoleStep_self_nomatch search dicoms hdrs series dirs b srs rr oc nc
        hlb hob hnb hempty
    · exact ⟨rr, by
        rw [filterRoleStep_lookup_other search dicoms hdrs series dirs b x srs hx]
        exact hlb, hob, hnb⟩
  have hPQ : ∀ b, P b → Q (step b srs) := by
    intro b ⟨rr, hlb, hob, hnb⟩
    refine ⟨noMatchUpd rr, ?_, hob, hnb, rfl, rfl, rfl, rfl⟩
    exact filterRoleStep_self_nomatch search dicoms hdrs series dirs b srs rr oc nc
      hlb hob hnb hempty
  have hQstep : ∀ b x, Q b → Q (step b x) := by
    intro b x ⟨rr, hlb, hob, hnb, h1, h2, h3, h4⟩
    by_cases hx : srs = x
    · subst hx
      refine ⟨noMatchUpd rr, ?_, hob, hnb, rfl, rfl, rfl, rfl⟩
      exact filterRoleStep_self_nomatch search dicoms hdrs series dirs b srs rr oc nc
        hlb hob hnb hempty
    · exact ⟨rr, by
        rw [filterRoleStep_lookup_other search dicoms hdrs series dirs b x srs hx]
        exact hlb, hob, hnb, h1, h2, h3, h4⟩
  have hQ : Q (filter_series search dicoms hdrs series dirs d) := by
    unfold filter_series
    exact foldl_establish step P Q srs (keysOf d) d hk ⟨r, hl, ho, hn⟩
      (fun b x _ hb => hPstep b x hb) hPQ (fun b x _ hb => hQstep b x hb)
  obtain ⟨r1, h1, _, _, h2, h3, h4, h5⟩ := hQ
  exact ⟨r1, h1, h2, h3, h4, h5⟩

/-- A concrete instance of `re.search` for patterns without metacharacters:
plain substring search. -/
def searchSub (pat target : String) : Bool := containsSub target pat

/-- A one-role bundle whose criteria match no series in the catalog. -/
def demoBundleC6 : Bundle :=
  [("DWI", { matchOr := some [["DWI"]], matchNot := some [] })]

/-- C6 (counterexample): running `filter_series` on a catalog with one
series "AX T1" and a role searching for "DWI" records the role's "dirs"
value as the empty list, not the string "None" claimed by the spec. -/
theorem C6_counterexample :
    (lookupRole (filter_series searchSub [["f1.dcm"]] [{}] ["AX T1"] ["/d/12345"]
        demoBundleC6) "DWI").map Role.dirs = some (some (.lst [])) ∧
    (lookupRole (filter_series searchSub [["f1.dcm"]] [{}] ["AX T1"] ["/d/12345"]
        demoBundleC6) "DWI").map Role.dirs ≠ some (some (.str "None")) := by
  exact ⟨by decide, by decide⟩

/-! ## C2: registration scheduling order -/

/-- The ordering stated by the spec, for a bundle whose "atlas" targets
have already been substituted with the caller-supplied atlas path: roles
targeting the atlas first, reg_last roles last, all other roles in catalog
(insertion) order. -/
def specRegOrder (atlasPath : String) (d : Bundle) : List String :=
  ((keysOf d).filter fun k =>
    ((lookupRole d k).bind Role.reg_target == some atlasPath) && !(regLastOf d k)) ++
  ((keysOf d).filter fun k =>
    !((lookupRole d k).bind Role.reg_target == some atlasPath) && !(regLastOf d k)) ++
  ((keysOf d).filter (regLastOf d))

theorem atlasFold_no_atlas (d : Bundle)
    (h : ∀ k, (lookupRole d k).bind Role.reg_target ≠ some "atlas") :
    ∀ (l acc : List String),
      l.foldl (fun acc key =>
        if (lookupRole d key).bind Role.reg_target = some "atlas" then key :: acc
        else acc ++ [key]) acc = acc ++ l := by
  intro l
  induction l with
  | nil => simp
  | cons x xs ih =>
    intro acc
    simp only [List.foldl_cons, if_neg (h x), ih]
    simp

theorem atlasFirstOrder_no_atlas (d : Bundle)
    (h : ∀ k, (lookupRole d k).bind Role.reg_target ≠ some "atlas") :
    atlasFirstOrder d = pySorted (keysOf d) := by
  unfold atlasFirstOrder
  rw [atlasFold_no_atlas d h]
  simp

theorem keysOf_make_serdict (a : String) (raw : Bundle) :
    keysOf (make_serdict a raw) = keysOf raw ++ ["info"] := by
  unfold make_serdict keysOf
  rw [List.map_append, List.map_map]
  rfl

theorem lookup_append (l1 l2 : Bundle) (k : String) :
    lookupRole (l1 ++ l2) k =
      match lookupRole l1 k with
      | some r => some r
      | none => lookupRole l2 k := by
  induction l1 with
  | nil => rfl
  | cons p rest ih =>
    obtain ⟨k0, r0⟩ := p
    by_cases hk : k0 = k <;> simp [lookupRole, hk, ih]

theorem lookup_map_subst (a : String) (raw : Bundle) (k : String) :
    lookupRole (raw.map fun p => (p.1, substAtlas a p.2)) k =
      (lookupRole raw k).map (substAtlas a) := by
  induction raw with
  | nil => rfl
  | cons p rest ih =>
    obtain ⟨k0, r0⟩ := p
    by_cases hk : k0 = k <;> simp [lookupRole, hk, ih]

theorem substAtlas_no_atlas (a : String) (r : Role) (ha : a ≠ "atlas") :
    (substAtlas a r).reg_target ≠ some "atlas" := by
  unfold substAtlas
  by_cases hc : r.reg_target = some "atlas"
  · simp only [if_pos hc]
    intro hcontra
    exact ha (Option.some.inj hcontra)
  · rw [if_neg hc]
    exact hc

theorem make_serdict_no_atlas (a : String) (raw : Bundle) (ha : a ≠ "atlas") :
    ∀ k, (lookupRole (make_serdict a raw) k).bind Role.reg_target ≠ some "atlas" := by
  intro k
  unfold make_serdict
  rw [lookup_append, lookup_map_subst]
  cases lookupRole raw k with
  | some r =>
    simp only [Option.map_some, Option.bind]
    exact substAtlas_no_atlas a r ha
  | none =>
    by_cases h : "info" = k <;> simp [lookupRole, h, infoRole]

/-- C2 (amended): the order computed by `reg_series` is not the catalog
order: role names are iterated in Python `sorted` (lexicographic) order,
with `reg_last` roles moved stably to the end.  Because `make_serdict`
substitutes the literal target "atlas" with the atlas file path before
`reg_series` runs, the atlas-first rule (which compares against the
literal string "atlas") matches no role whenever the atlas path is not
itself the string "atlas", and therefore has no effect. -/
theorem C2_order_amended (a : String) (raw : Bundle) (ha : a ≠ "atlas") :
    sortedKeysOf (make_serdict a raw) =
      ((pySorted (keysOf raw ++ ["info"])).filter fun k =>
        !(regLastOf (make_serdict a raw) k)) ++
      ((pySorted (keysOf raw ++ ["info"])).filter (regLastOf (make_serdict a raw))) := by
  unfold sortedKeysOf regLastSplit
  rw [atlasFirstOrder_no_atlas _ (make_serdict_no_atlas a raw ha), keysOf_make_serdict]

/-- A two-role catalog: "T2" targets the atlas, "T1" targets "T2", no
role is flagged reg_last. -/
def demoRawC2 : Bundle :=
  [("T2", { reg := some (.s "affine"), reg_target := some "atlas" }),
   ("T1", { reg := some (.s "rigid"), reg_target := some "T2" })]

/-- C2 (counterexample): on the demo catalog the claimed ordering (atlas
first, others in catalog order) is ["T2", "T1", "info"], but `reg_series`
computes ["T1", "T2", "info"]: lexicographically sorted, atlas-targeted
role not first. -/
theorem C2_order_counterexample :
    sortedKeysOf (make_serdict "/data/atlas.nii.gz" demoRawC2) = ["T1", "T2", "info"] ∧
    specRegOrder "/data/atlas.nii.gz" (make_serdict "/data/atlas.nii.gz" demoRawC2) =
      ["T2", "T1", "info"] ∧
    sortedKeysOf (make_serdict "/data/atlas.nii.gz" demoRawC2) ≠
      specRegOrder "/data/atlas.nii.gz" (make_serdict "/data/atlas.nii.gz" demoRawC2) := by
  exact ⟨by decide, by decide, by decide⟩

/-- Witness for `C6_nomatch_recording` at a concrete no-match run. -/
theorem C6_nomatch_recording_witness :
    ∃ r1, lookupRole (filter_series searchSub [["f1.dcm"]] [{}] ["AX T1"] ["/d/12345"]
        demoBundleC6) "DWI" = some r1 ∧
      r1.dicoms = some [] ∧ r1.hdrs = some .emptyL ∧ r1.series = some "None" ∧
      r1.dirs = some (.lst []) :=
  C6_nomatch_recording searchSub [["f1.dcm"]] [{}] ["AX T1"] ["/d/12345"] demoBundleC6
    "DWI" { matchOr := some [["DWI"]], matchNot := some [] } [["DWI"]] []
    (by decide) rfl rfl (by decide)

/-- Witness for `C2_order_amended` at a concrete atlas path and catalog. -/
theorem C2_order_amended_witness :
    sortedKeysOf (make_serdict "/data/atlas.nii.gz" demoRawC2) =
      ((pySorted (keysOf demoRawC2 ++ ["info"])).filter fun k =>
        !(regLastOf (make_serdict "/data/atlas.nii.gz" demoRawC2) k)) ++
      ((pySorted (keysOf demoRawC2 ++ ["info"])).filter
        (regLastOf (make_serdict "/data/atlas.nii.gz" demoRawC2))) :=
  C2_order_amended "/data/atlas.nii.gz" demoRawC2 (by decide)

/-! ## C7: zero-mean / unit-variance normalization -/

theorem sum_map_sub_div (l : List ℚ) (a b : ℚ) :
    (l.map fun x => (x - a) / b).sum = (l.sum - l.length * a) / b := by
  induction l with
  | nil => simp
  | cons x xs ih =>
    simp only [List.map_cons, List.sum_cons, ih, List.length_cons]
    rw [div_add_div_same]
    congr 1
    push_cast
    ring

theorem sum_map_div (l : List ℚ) (g : ℚ → ℚ) (b : ℚ) :
    (l.map fun x => g x / b).sum = (l.map g).sum / b := by
  induction l with
  | nil => simp
  | cons x xs ih => simp only [List.map_cons, List.sum_cons, ih, div_add_div_same]

theorem npMean_centered (l : List ℚ) (s : ℚ) (hne : l ≠ []) :
    npMean (l.map fun x => (x - npMean l) / s) = 0 := by
  have hn : (l.length : ℚ) ≠ 0 := by
    have := List.length_pos.mpr hne
    positivity
  unfold npMean
  rw [List.length_map, sum_map_sub_div, mul_comm, div_mul_cancel₀ _ hn]
  simp

theorem npVar_normalized (l : List ℚ) (s : ℚ) (hne : l ≠ []) (hs : s ≠ 0)
    (hvar : s ^ 2 = npVar l) :
    npVar (l.map fun x => (x - npMean l) / s) = 1 := by
  have hzero := npMean_centered l s hne
  unfold npVar
  rw [hzero]
  simp only [sub_zero, List.map_map]
  have hcomp : ((fun x => x ^ 2) ∘ fun x => (x - npMean l) / s) =
      fun x => ((x - npMean l) ^ 2) / s ^ 2 := by
    funext x
    simp [div_pow]
  rw [hcomp]
  unfold npMean
  rw [List.length_map, sum_map_div, div_div,
    mul_comm ((s : ℚ) ^ 2) ((l.length : ℚ)), ← div_div]
  have hv : (l.map fun x => (x - l.sum / (l.length : ℚ)) ^ 2).sum / (l.length : ℚ) =
      npVar l := by
    unfold npVar npMean
    rw [List.length_map]
  rw [hv, ← hvar]
  exact div_self (pow_ne_zero 2 hs)

/-- C7: the normalization maps every voxel that is exactly zero to exactly
zero, maps every nonzero voxel `x` to `(x - mean) / std` with mean and std
computed over the nonzero voxels only, and consequently the transformed
values of the originally-nonzero voxels have mean 0 and variance 1 (with
`s` the standard deviation, characterized by `s ^ 2` equal to the
population variance of the nonzero voxels, provided that variance is
attained by a nonzero `s` on a nonempty nonzero subset). -/
theorem C7_normalization (img : List ℚ) (s : ℚ) :
    ((norm_img s img).length = img.length) ∧
    (∀ (i : Nat), img[i]? = some 0 → (norm_img s img)[i]? = some 0) ∧
    (∀ (i : Nat) (x : ℚ), img[i]? = some x → x ≠ 0 →
      (norm_img s img)[i]? = some ((x - npMean (nonzeroVals img)) / s)) ∧
    (nonzeroVals img ≠ [] → s ≠ 0 → s ^ 2 = npVar (nonzeroVals img) →
      npMean ((nonzeroVals img).map fun x => (x - npMean (nonzeroVals img)) / s) = 0 ∧
      npVar ((nonzeroVals img).map fun x => (x - npMean (nonzeroVals img)) / s) = 1) := by
  refine ⟨?_, ?_, ?_, ?_⟩
  · simp [norm_img]
  · intro i h
    simp only [norm_img, List.getElem?_map, h, Option.map_some]
    simp
  · intro i x h hx
    simp only [norm_img, List.getElem?_map, h, Option.map_some]
    simp [hx]
  · intro hne hs hvar
    exact ⟨npMean_centered _ s hne, npVar_normalized _ s hne hs hvar⟩

/-- Witness for `C7_normalization` on the image `[2, 0, 4]` with standard
deviation 1 (the nonzero voxels are `[2, 4]`, mean 3, variance 1). -/
theorem C7_normalization_witness :
    (norm_img 1 [2, 0, 4])[1]? = some 0 ∧
    npMean ((nonzeroVals [2, 0, 4]).map fun x =>
      (x - npMean (nonzeroVals [2, 0, 4])) / 1) = 0 ∧
    npVar ((nonzeroVals [2, 0, 4]).map fun x =>
      (x - npMean (nonzeroVals [2, 0, 4])) / 1) = 1 := by
  have h := C7_normalization [2, 0, 4] 1
  have h4 := h.2.2.2 (by decide) (by norm_num)
    (by norm_num [nonzeroVals, npVar, npMean])
  exact ⟨h.2.1 1 (by decide), h4.1, h4.2⟩

/-! ## C10: unguarded `filename_bias` read in `norm_niis` -/

theorem normRoleStep_ok_other (rep : Bool) (st st' : Fs × Bundle) (x srs : String)
    (hx : srs ≠ x) (h : normRoleStep rep st x = .ok st') :
    lookupRole st'.2 srs = lookupRole st.2 srs := by
  unfold normRoleStep at h
  cases hlx : lookupRole st.2 x with
  | none =>
    rw [hlx] at h
    cases h
    rfl
  | some rx =>
    rw [hlx] at h
    have h2 : normCore rep st.1 st.2 x rx = .ok st' := h
    unfold normCore at h2
    by_cases hb : rx.bias = some true
    · rw [if_pos hb] at h2
      cases hfb : rx.filename_bias with
      | none =>
        rw [hfb] at h2
        exact absurd h2 (by simp)
      | some fn =>
        rw [hfb] at h2
        cases h2
        exact lookup_updateRole_other st.2 x srs _ hx
    · rw [if_neg hb] at h2
      cases h2
      rfl

/-- C10: a role flagged `bias = true` whose bias correction was skipped
(because its masked file was missing, so `filename_bias` was never
recorded) makes the normalization stage raise `KeyError` when it reaches
that role, aborting normalization for the whole case — the stage does not
skip the role. -/
theorem C10_norm_keyerror :
    (∀ (idno work_dir : String) (rep : Bool) (fs : Fs) (d : Bundle) (srs : String)
      (r : Role), lookupRole d srs = some r → r.bias = some true →
      isfile fs (pathJoin work_dir (idno ++ "_" ++ srs ++ "_wm.nii.gz")) = false →
      biasRoleStep idno work_dir rep (fs, d) srs = (fs, d)) ∧
    (∀ (rep : Bool) (fs : Fs) (d : Bundle) (srs : String) (r : Role),
      lookupRole d srs = some r → r.bias = some true → r.filename_bias = none →
      ∃ e, norm_niis rep fs d = .error e) := by
  constructor
  · intro idno work_dir rep fs d srs r hl hb hf
    unfold biasRoleStep
    rw [hl]
    show biasCore idno work_dir rep fs d srs r = (fs, d)
    unfold biasCore
    rw [if_pos hb]
    simp [hf]
  · intro rep fs d srs r hl hb hfb
    have hk : srs ∈ keysOf d := mem_keys_of_lookup d srs r hl
    unfold norm_niis
    apply passFold_error (normRoleStep rep)
      (fun st => ∃ rr, lookupRole st.2 srs = some rr ∧ rr.bias = some true ∧
        rr.filename_bias = none) srs (keysOf d) (fs, d) hk ⟨r, hl, hb, hfb⟩
    · intro b x b' _ ⟨rr, hlb, hbb, hfbb⟩ hs
      by_cases hx : srs = x
      · subst hx
        unfold normRoleStep at hs
        rw [hlb] at hs
        have hs2 : normCore rep b.1 b.2 srs rr = .ok b' := hs
        unfold normCore at hs2
        rw [if_pos hbb, hfbb] at hs2
        exact absurd hs2 (by simp)
      · exact ⟨rr, by
          rw [normRoleStep_ok_other rep b b' x srs hx hs]
          exact hlb, hbb, hfbb⟩
    · intro b ⟨rr, hlb, hbb, hfbb⟩
      refine ⟨"KeyError: filename_bias of " ++ srs, ?_⟩
      unfold normRoleStep
      rw [hlb]
      show normCore rep b.1 b.2 srs rr = _
      unfold normCore
      rw [if_pos hbb, hfbb]

/-- Witness for `C10_norm_keyerror`: one role flagged for bias correction
with no masked file on disk and no recorded `filename_bias`. -/
theorem C10_norm_keyerror_witness :
    biasRoleStep "case" "/work" false ([], [("T1", { bias := some true })]) "T1" =
      ([], [("T1", { bias := some true })]) ∧
    ∃ e, norm_niis false [] [("T1", { bias := some true })] = .error e := by
  constructor
  · exact C10_norm_keyerror.1 "case" "/work" false [] [("T1", { bias := some true })]
      "T1" { bias := some true } (by decide) rfl (by decide)
  · exact C10_norm_keyerror.2 false [] [("T1", { bias := some true })]
      "T1" { bias := some true } (by decide) rfl rfl

/-! ## C9: stage-level idempotence (no writes when outputs exist) -/

theorem seriesList_norewrite (fs : Fs) (series_file : String)
    (h : isfile fs series_file = true) :
    seriesListWrite fs series_file false = fs := by
  unfold seriesListWrite
  simp [h]

theorem runReg_norewrite (mode : GeoMode) (st : RegSt) (wd mov tpl : String)
    (h : isfile st.fs (transName wd mov tpl) = true) :
    runReg mode st wd mov tpl false = (st, transName wd mov tpl) := by
  unfold runReg
  simp [h]

theorem antsApply1_norewrite (st : RegSt) (wd mov ref trn : String)
    (h : isfile st.fs (antsApplyName wd mov) = true) :
    ants_apply1 st wd mov ref trn false = (st, antsApplyName wd mov) := by
  unfold ants_apply1
  simp [h]

theorem antsApplyList_norewrite (st : RegSt) (wd : String) (movs : List String)
    (ref trn : String)
    (h : ∀ m ∈ movs, isfile st.fs (antsApplyName wd m) = true) :
    ants_apply_list st wd movs ref trn false = st := by
  induction movs with
  | nil => rfl
  | cons m ms ih =>
    unfold ants_apply_list
    simp only [List.foldl_cons]
    rw [show (ants_apply1 st wd m ref trn false).1 = st from by
      rw [antsApply1_norewrite st wd m ref trn (h m (by simp))]]
    exact ih fun m2 hm2 => h m2 (by simp [hm2])

theorem maskCore_nofswrite (fs : Fs) (d : Bundle) (sers : String) (rx : Role)
    (hout : ∀ fr, rx.filename_reg = some fr → isfile fs (maskedName fr) = true) :
    (maskCore false fs d sers rx).1 = fs := by
  unfold maskCore
  cases hfr : rx.filename_reg with
  | none => rfl
  | some freg =>
    have hm := hout freg hfr
    show (maskApplyF false fs d sers freg).1 = fs
    unfold maskApplyF
    simp [hm]

theorem maskCore_lookup_freg (fs : Fs) (d : Bundle) (sers : String) (rx : Role)
    (k : String) :
    (lookupRole (maskCore false fs d sers rx).2 k).map Role.filename_reg =
      (lookupRole d k).map Role.filename_reg := by
  unfold maskCore
  cases hfr : rx.filename_reg with
  | none => rfl
  | some freg =>
    have hupd : ∀ (f : Role → Role), (∀ r0, (f r0).filename_reg = r0.filename_reg) →
        (lookupRole (updateRole d sers f) k).map Role.filename_reg =
          (lookupRole d k).map Role.filename_reg := by
      intro f hf
      by_cases hk : k = sers
      · subst hk
        rw [lookup_updateRole_self, Option.map_map]
        cases lookupRole d k with
        | none => rfl
        | some rk => simp [hf]
      · rw [lookup_updateRole_other _ _ _ _ hk]
    show (lookupRole (maskApplyF false fs d sers freg).2 k).map Role.filename_reg = _
    unfold maskApplyF
    by_cases hc1 : (false || (!(isfile fs (maskedName freg)) && isfile fs freg)) = true
    · rw [if_pos hc1]
      exact hupd _ fun r0 => rfl
    · rw [if_neg hc1]
      by_cases hc2 : isfile fs (maskedName freg) = true
      · rw [if_pos hc2]
        exact hupd _ fun r0 => rfl
      · rw [if_neg hc2]

theorem breastMask_norewrite (idno wd : String) (fs : Fs) (d : Bundle)
    (hmask : isfile fs (pathJoin wd (idno ++ "_breast_mask.nii.gz")) = true)
    (hout : ∀ k r, lookupRole d k = some r → ∀ fr, r.filename_reg = some fr →
      isfile fs (maskedName fr) = true) :
    (breast_mask idno wd false fs d).1 = fs := by
  unfold breast_mask
  by_cases ht : isfile fs (pathJoin wd (idno ++ "_T1_w.nii.gz"))
  · simp only [ht, Bool.not_true, Bool.false_eq_true, if_false, hmask, if_true]
    refine (foldl_preserve (maskRoleStep false)
      (fun st => st.1 = fs ∧ ∀ k rr, lookupRole st.2 k = some rr →
        ∀ fr, rr.filename_reg = some fr → isfile fs (maskedName fr) = true)
      (keysOf d) (fs, d) ⟨rfl, hout⟩ ?_).1
    intro b x _ hb
    obtain ⟨hb1, hb2⟩ := hb
    unfold maskRoleStep
    cases hlx : lookupRole b.2 x with
    | none => exact ⟨hb1, hb2⟩
    | some rx =>
      constructor
      · show (maskCore false b.1 b.2 x rx).1 = fs
        rw [maskCore_nofswrite b.1 b.2 x rx ?_]
        · exact hb1
        · intro fr hfr
          rw [hb1]
          exact hb2 x rx hlx fr hfr
      · show ∀ k rr, lookupRole (maskCore false b.1 b.2 x rx).2 k = some rr →
          ∀ fr, rr.filename_reg = some fr → isfile fs (maskedName fr) = true
        intro k rr hkr fr hfr
        have hmap := maskCore_lookup_freg b.1 b.2 x rx k
        rw [hkr] at hmap
        cases hlk : lookupRole b.2 k with
        | none =>
          rw [hlk] at hmap
          exact absurd hmap (by simp)
        | some rk =>
          rw [hlk] at hmap
          have hinj : rr.filename_reg = rk.filename_reg := Option.some.inj hmap
          exact hb2 k rk hlk fr (hinj ▸ hfr)
  · simp [ht]

theorem biasCorrect_norewrite (idno wd : String) (fs : Fs) (d : Bundle)
    (h : ∀ k, k ∈ keysOf d →
      isfile fs (rsplit1 (pathJoin wd (idno ++ "_" ++ k ++ "_wm.nii.gz")) ".nii" ++
        "t.nii.gz") = true ∧
      isfile fs (rsplit1 (rsplit1 (pathJoin wd (idno ++ "_" ++ k ++ "_wm.nii.gz"))
        ".nii" ++ "t.nii.gz") ".nii" ++ "b.nii.gz") = true) :
    (bias_correct idno wd false fs d).1 = fs := by
  unfold bias_correct
  have hP := foldl_preserve (biasRoleStep idno wd false) (fun st => st.1 = fs)
    (keysOf d) (fs, d) rfl ?_
  · exact hP
  · intro b x hx hb1
    obtain ⟨bfs, bd⟩ := b
    have hb2 : bfs = fs := hb1
    subst hb2
    unfold biasRoleStep
    cases hlx : lookupRole bd x with
    | none => rfl
    | some rx =>
      show (biasCore idno wd false bfs bd x rx).1 = bfs
      unfold biasCore
      by_cases hbias : rx.bias = some true
      · rw [if_pos hbias]
        by_cases hf : isfile bfs (pathJoin wd (idno ++ "_" ++ x ++ "_wm.nii.gz"))
        · by_cases hm : isfile bfs (pathJoin wd (idno ++ "_combined_brain_mask.nii.gz"))
          · simp [hf, hm, (h x hx).1, (h x hx).2]
          · simp [hf, hm]
        · simp [hf]
      · rw [if_neg hbias]

theorem normNiis_norewrite (fs : Fs) (d : Bundle)
    (h : ∀ k r, lookupRole d k = some r → r.bias = some true →
      ∃ fn, r.filename_bias = some fn ∧ isfile fs (normName fn) = true) :
    ∃ d2, norm_niis false fs d = .ok (fs, d2) := by
  unfold norm_niis
  have hP := passFold_ok_preserve (normRoleStep false)
    (fun st => st.1 = fs ∧ ∀ k rr, lookupRole st.2 k = some rr →
      rr.bias = some true →
      ∃ fn, rr.filename_bias = some fn ∧ isfile fs (normName fn) = true)
    (keysOf d) (fs, d) ⟨rfl, h⟩ ?_
  · obtain ⟨res, hres, hP1, _⟩ := hP
    refine ⟨res.2, ?_⟩
    rw [hres, show res = (fs, res.2) from Prod.ext hP1 rfl]
  · intro b x _ hb
    obtain ⟨hb1, hb2⟩ := hb
    cases hlx : lookupRole b.2 x with
    | none =>
      refine ⟨b, ?_, hb1, hb2⟩
      unfold normRoleStep
      rw [hlx]
    | some rx =>
      have hcore : ∃ b', normCore false b.1 b.2 x rx = .ok b' ∧
          (b'.1 = fs ∧ ∀ k rr, lookupRole b'.2 k = some rr → rr.bias = some true →
            ∃ fn, rr.filename_bias = some fn ∧ isfile fs (normName fn) = true) := by
        unfold normCore
        by_cases hbias : rx.bias = some true
        · rw [if_pos hbias]
          obtain ⟨fn, hfn, hnf⟩ := hb2 x rx hlx hbias
          rw [hfn]
          refine ⟨_, rfl, ?_, ?_⟩
          · show (if (!(isfile b.1 (normName fn)) || false) = true
                then addFile b.1 (normName fn) else b.1) = fs
            rw [hb1]
            simp [hnf]
          · intro k rr hkr hbb
            by_cases hk : k = x
            · subst hk
              rw [lookup_updateRole_self] at hkr
              rw [hlx] at hkr
              have heq : rr.filename_bias = rx.filename_bias ∧ rr.bias = rx.bias := by
                cases hkr
                exact ⟨rfl, rfl⟩
              obtain ⟨fn2, hfn2, hnf2⟩ := hb2 k rx hlx (heq.2 ▸ hbb)
              exact ⟨fn2, heq.1 ▸ hfn2, hnf2⟩
            · rw [lookup_updateRole_other _ _ _ _ hk] at hkr
              exact hb2 k rr hkr hbb
        · rw [if_neg hbias]
          exact ⟨(b.1, b.2), rfl, hb1, hb2⟩
      obtain ⟨b', hc, hPb⟩ := hcore
      refine ⟨b', ?_, hPb⟩
      unfold normRoleStep
      rw [hlx]
      exact hc

/-- C9: the embedded pipeline stages are idempotent under `repeat = false`:
when a stage's expected output files already exist, running the stage
performs no filesystem writes — the series-list manifest is not rewritten,
a cached composite transform is reused without rerunning registration, an
existing warped output is not recreated (singly or in the list version),
the masking stage leaves the filesystem unchanged, and the bias-correction
and normalization stages leave the filesystem unchanged. -/
theorem C9_idempotent_stages :
    (∀ (fs : Fs) (series_file : String), isfile fs series_file = true →
      seriesListWrite fs series_file false = fs) ∧
    (∀ (mode : GeoMode) (st : RegSt) (wd mov tpl : String),
      isfile st.fs (transName wd mov tpl) = true →
      runReg mode st wd mov tpl false = (st, transName wd mov tpl)) ∧
    (∀ (st : RegSt) (wd mov ref trn : String),
      isfile st.fs (antsApplyName wd mov) = true →
      ants_apply1 st wd mov ref trn false = (st, antsApplyName wd mov)) ∧
    (∀ (st : RegSt) (wd : String) (movs : List String) (ref trn : String),
      (∀ m ∈ movs, isfile st.fs (antsApplyName wd m) = true) →
      ants_apply_list st wd movs ref trn false = st) ∧
    (∀ (idno wd : String) (fs : Fs) (d : Bundle),
      isfile fs (pathJoin wd (idno ++ "_breast_mask.nii.gz")) = true →
      (∀ k r, lookupRole d k = some r → ∀ fr, r.filename_reg = some fr →
        isfile fs (maskedName fr) = true) →
      (breast_mask idno wd false fs d).1 = fs) ∧
    (∀ (idno wd : String) (fs : Fs) (d : Bundle),
      (∀ k, k ∈ keysOf d →
        isfile fs (rsplit1 (pathJoin wd (idno ++ "_" ++ k ++ "_wm.nii.gz")) ".nii" ++
          "t.nii.gz") = true ∧
        isfile fs (rsplit1 (rsplit1 (pathJoin wd (idno ++ "_" ++ k ++ "_wm.nii.gz"))
          ".nii" ++ "t.nii.gz") ".nii" ++ "b.nii.gz") = true) →
      (bias_correct idno wd false fs d).1 = fs) ∧
    (∀ (fs : Fs) (d : Bundle),
      (∀ k r, lookupRole d k = some r → r.bias = some true →
        ∃ fn, r.filename_bias = some fn ∧ isfile fs (normName fn) = true) →
      ∃ d2, norm_niis false fs d = .ok (fs, d2)) :=
  ⟨seriesList_norewrite, runReg_norewrite, antsApply1_norewrite,
   antsApplyList_norewrite, breastMask_norewrite, biasCorrect_norewrite,
   normNiis_norewrite⟩

/-- Witness for `C9_idempotent_stages` on concrete one-role scenarios with
all expected outputs already on disk. -/
theorem C9_idempotent_stages_witness :
    seriesListWrite ["/w/c_series_list.txt"] "/w/c_series_list.txt" false =
      ["/w/c_series_list.txt"] ∧
    runReg .affine ⟨["/w/a_2_b_Composite.h5"], [], []⟩ "/w" "/w/a.nii.gz" "/w/b.nii.gz"
      false = (⟨["/w/a_2_b_Composite.h5"], [], []⟩, "/w/a_2_b_Composite.h5") ∧
    ants_apply1 ⟨["/w/a_w.nii.gz"], [], []⟩ "/w" "/w/a.nii.gz" "/w/b.nii.gz" "/w/t.h5"
      false = (⟨["/w/a_w.nii.gz"], [], []⟩, "/w/a_w.nii.gz") ∧
    ants_apply_list ⟨["/w/a_w.nii.gz"], [], []⟩ "/w" ["/w/a.nii.gz"] "/w/b.nii.gz"
      "/w/t.h5" false = ⟨["/w/a_w.nii.gz"], [], []⟩ ∧
    (breast_mask "c" "/w" false ["/w/c_breast_mask.nii.gz"] []).1 =
      ["/w/c_breast_mask.nii.gz"] ∧
    (bias_correct "c" "/w" false ["/w/c_T1_wmt.nii.gz", "/w/c_T1_wmtb.nii.gz"]
      [("T1", { bias := some true })]).1 =
      ["/w/c_T1_wmt.nii.gz", "/w/c_T1_wmtb.nii.gz"] ∧
    ∃ d2, norm_niis false ["/w/c_T1_wmtbn.nii.gz"]
      [("T1", { bias := some true, filename_bias := some "/w/c_T1_wmtb.nii.gz" })] =
      .ok (["/w/c_T1_wmtbn.nii.gz"], d2) := by
  refine ⟨C9_idempotent_stages.1 _ _ (by decide),
    C9_idempotent_stages.2.1 .affine ⟨_, [], []⟩ "/w" _ _ (by decide),
    C9_idempotent_stages.2.2.1 ⟨_, [], []⟩ "/w" _ _ _ (by decide),
    C9_idempotent_stages.2.2.2.1 ⟨_, [], []⟩ "/w" _ _ _ (by decide),
    C9_idempotent_stages.2.2.2.2.1 "c" "/w" _ [] (by decide) ?_,
    C9_idempotent_stages.2.2.2.2.2.1 "c" "/w" _ _ ?_,
    C9_idempotent_stages.2.2.2.2.2.2 _ _ ?_⟩
  · intro k r hkr
    exact absurd hkr (by simp [lookupRole])
  · intro k hk
    have hkeq : k = "T1" := by
      simpa [keysOf] using hk
    subst hkeq
    exact ⟨by decide, by decide⟩
  · intro k r hkr hb
    unfold lookupRole at hkr
    by_cases hk : "T1" = k
    · rw [if_pos hk] at hkr
      cases hkr
      exact ⟨"/w/c_T1_wmtb.nii.gz", rfl, by decide⟩
    · rw [if_neg hk] at hkr
      exact absurd hkr (by simp [lookupRole])

/-! ## Registration-state lemmas (used by C1, C3 and C4) -/

theorem runReg_dict (mode : GeoMode) (st : RegSt) (wd m t : String) (rep : Bool) :
    (runReg mode st wd m t rep).1.dict = st.dict := by
  unfold runReg
  by_cases h : (!(isfile st.fs (transName wd m t)) || rep) = true <;> simp [h]

theorem runReg_snd (mode : GeoMode) (st : RegSt) (wd m t : String) (rep : Bool) :
    (runReg mode st wd m t rep).2 = transName wd m t := by
  unfold runReg
  by_cases h : (!(isfile st.fs (transName wd m t)) || rep) = true <;> simp [h]

theorem ants_apply1_dict (st : RegSt) (wd m ref trn : String) (rep : Bool) :
    (ants_apply1 st wd m ref trn rep).1.dict = st.dict := by
  unfold ants_apply1
  by_cases h : (!(isfile st.fs (antsApplyName wd m)) || rep) = true <;> simp [h]

theorem ants_apply1_snd (st : RegSt) (wd m ref trn : String) (rep : Bool) :
    (ants_apply1 st wd m ref trn rep).2 = antsApplyName wd m := by
  unfold ants_apply1
  by_cases h : (!(isfile st.fs (antsApplyName wd m)) || rep) = true <;> simp [h]

theorem geoRun_dict (mode : GeoMode) (wd : String) (rep : Bool) (st : RegSt)
    (ser movingr movinga template : String) :
    (geoRun mode wd rep st ser movingr movinga template).dict =
      updateRole st.dict ser fun r0 =>
        { r0 with
          filename_reg := some (antsApplyName wd movinga)
          transform := some (transName wd movingr template) } := by
  simp only [geoRun, runReg_snd, runReg_dict, ants_apply1_snd, ants_apply1_dict]

theorem geoCore_dict_shape (mode : GeoMode) (wd : String) (rep : Bool) (st : RegSt)
    (ser : String) (rx : Role) (st' : RegSt)
    (h : geoCore mode wd rep st ser rx = .ok st') :
    st'.dict = st.dict ∨ ∃ f, st'.dict = updateRole st.dict ser f ∧
      ∀ r0, (∃ v, (f r0).filename_reg = some v) ∧ (f r0).reg = r0.reg := by
  unfold geoCore at h
  by_cases hreg : rx.reg = some (.s mode.str)
  · rw [if_pos hreg] at h
    cases hres : resolveTemplate st.fs st.dict rx with
    | error e =>
      rw [hres] at h
      exact absurd h (by simp)
    | ok tpl =>
      rw [hres] at h
      have h2 : (if (mode.guarded &&
          !(isfile st.fs (movingOf rx).1 && isfile st.fs tpl)) = true then Except.ok st
          else Except.ok (geoRun mode wd rep st ser (movingOf rx).1 (movingOf rx).2 tpl)) =
          Except.ok st' := h
      by_cases hskip : (mode.guarded &&
          !(isfile st.fs (movingOf rx).1 && isfile st.fs tpl)) = true
      · rw [if_pos hskip] at h2
        cases h2
        exact Or.inl rfl
      · rw [if_neg hskip] at h2
        cases h2
        exact Or.inr ⟨_, geoRun_dict mode wd rep st ser (movingOf rx).1 (movingOf rx).2 tpl,
          fun r0 => ⟨⟨_, rfl⟩, rfl⟩⟩
  · rw [if_neg hreg] at h
    cases h
    exact Or.inl rfl

theorem geoStep_preserves_bfalse (mode : GeoMode) (wd : String) (rep : Bool)
    (b b' : RegSt) (x k : String) (rk : Role)
    (hb : lookupRole b.dict k = some rk) (hbf : rk.reg = some (.b false))
    (hs : geoStep mode wd rep b x = .ok b') :
    lookupRole b'.dict k = some rk := by
  unfold geoStep at hs
  cases hlx : lookupRole b.dict x with
  | none =>
    rw [hlx] at hs
    cases hs
    exact hb
  | some rx =>
    rw [hlx] at hs
    have hs2 : geoCore mode wd rep b x rx = .ok b' := hs
    by_cases hxk : x = k
    · subst hxk
      have hrx : rx = rk := by
        rw [hlx] at hb
        exact Option.some.inj hb
      subst hrx
      unfold geoCore at hs2
      rw [if_neg (by simp [hbf])] at hs2
      cases hs2
      exact hb
    · rcases geoCore_dict_shape mode wd rep b x rx b' hs2 with hd | ⟨f, hd, _⟩
      · rw [hd]
        exact hb
      · rw [hd, lookup_updateRole_other _ _ _ _ fun he => hxk he.symm]
        exact hb

theorem borrowRun_dict (wd : String) (rep : Bool) (st : RegSt)
    (ser moving template transforms : String) :
    (borrowRun wd rep st ser moving template transforms).dict =
      updateRole st.dict ser fun r0 =>
        { r0 with
          filename_reg := some (antsApplyName wd moving)
          transform := some transforms } := by
  simp only [borrowRun, ants_apply1_snd, ants_apply1_dict]

theorem borrowApply_dict_shape (wd : String) (rep : Bool) (st : RegSt)
    (ser : String) (tr fr mv : Option String) :
    (borrowApply wd rep st ser tr fr mv).dict = st.dict ∨
      ∃ f, (borrowApply wd rep st ser tr fr mv).dict = updateRole st.dict ser f ∧
        ∀ r0, (∃ v, (f r0).filename_reg = some v) ∧ (f r0).reg = r0.reg := by
  unfold borrowApply
  cases tr with
  | none => cases fr <;> cases mv <;> exact Or.inl rfl
  | some trn =>
    cases fr with
    | none => cases mv <;> exact Or.inl rfl
    | some tpl =>
      cases mv with
      | none => exact Or.inl rfl
      | some mov =>
        exact Or.inr ⟨_, borrowRun_dict wd rep st ser mov tpl trn,
          fun r0 => ⟨⟨_, rfl⟩, rfl⟩⟩

theorem borrowTry_dict_shape (wd : String) (rep : Bool) (keys : List String)
    (st : RegSt) (ser m : String) (rFilename : Option String) :
    (borrowTry wd rep keys st ser m rFilename).dict = st.dict ∨
      ∃ f, (borrowTry wd rep keys st ser m rFilename).dict = updateRole st.dict ser f ∧
        ∀ r0, (∃ v, (f r0).filename_reg = some v) ∧ (f r0).reg = r0.reg := by
  unfold borrowTry
  by_cases hmem : keys.contains m
  · rw [if_pos hmem]
    cases lookupRole st.dict m with
    | none => exact Or.inl rfl
    | some ra =>
      show (borrowApply wd rep st ser ra.transform ra.filename_reg rFilename).dict =
          st.dict ∨ ∃ f, (borrowApply wd rep st ser ra.transform ra.filename_reg
            rFilename).dict = updateRole st.dict ser f ∧
          ∀ r0, (∃ v, (f r0).filename_reg = some v) ∧ (f r0).reg = r0.reg
      exact borrowApply_dict_shape wd rep st ser ra.transform ra.filename_reg rFilename
  · rw [if_neg hmem]
    exact Or.inl rfl

theorem borrowCore_dict_shape (wd : String) (rep : Bool) (keys : List String)
    (st : RegSt) (ser : String) (rx : Role) :
    (borrowCore wd rep keys st ser rx).dict = st.dict ∨
      ∃ f, (borrowCore wd rep keys st ser rx).dict = updateRole st.dict ser f ∧
        ∀ r0, (∃ v, (f r0).filename_reg = some v) ∧ (f r0).reg = r0.reg := by
  unfold borrowCore
  cases hreg : rx.reg with
  | none => exact Or.inl rfl
  | some rv =>
    cases rv with
    | b bv => exact Or.inl rfl
    | s m =>
      show (borrowTry wd rep keys st ser m rx.filename).dict = st.dict ∨
        ∃ f, (borrowTry wd rep keys st ser m rx.filename).dict = updateRole st.dict ser f ∧
          ∀ r0, (∃ v, (f r0).filename_reg = some v) ∧ (f r0).reg = r0.reg
      exact borrowTry_dict_shape wd rep keys st ser m rx.filename

theorem borrowStep_preserves_bfalse (wd : String) (rep : Bool) (keys : List String)
    (b : RegSt) (x k : String) (rk : Role)
    (hb : lookupRole b.dict k = some rk) (hbf : rk.reg = some (.b false)) :
    lookupRole (borrowStep wd rep keys b x).dict k = some rk := by
  unfold borrowStep
  cases hlx : lookupRole b.dict x with
  | none => exact hb
  | some rx =>
    show lookupRole (borrowCore wd rep keys b x rx).dict k = some rk
    by_cases hxk : x = k
    · subst hxk
      have hrx : rx = rk := by
        rw [hlx] at hb
        exact Option.some.inj hb
      subst hrx
      unfold borrowCore
      rw [hbf]
      exact hb
    · rcases borrowCore_dict_shape wd rep keys b x rx with hd | ⟨f, hd, _⟩
      · rw [hd]
        exact hb
      · rw [hd, lookup_updateRole_other _ _ _ _ fun he => hxk he.symm]
        exact hb

theorem regInitRole_idem (r : Role) : regInitRole (regInitRole r) = regInitRole r := by
  unfold regInitRole
  by_cases h1 : r.filename = none
  · simp only [h1, if_true, if_pos]
    split <;> simp_all
  · simp only [h1, Bool.false_eq_true, if_false, if_neg]
    split <;> simp_all

theorem regInitPass_lookup (d : Bundle) (keys : List String) (k : String) (r : Role)
    (hk : k ∈ keys) (hl : lookupRole d k = some r) :
    lookupRole (regInitPass d keys) k = some (regInitRole r) := by
  unfold regInitPass
  refine foldl_establish (fun d0 k0 => updateRole d0 k0 regInitRole)
    (fun d0 => lookupRole d0 k = some r ∨ lookupRole d0 k = some (regInitRole r))
    (fun d0 => lookupRole d0 k = some (regInitRole r)) k keys d hk (Or.inl hl)
    ?_ ?_ ?_
  · intro b x _ hb
    by_cases hxk : x = k
    · subst hxk
      rw [lookup_updateRole_self]
      rcases hb with hb | hb
      · rw [hb]
        exact Or.inr rfl
      · rw [hb]
        exact Or.inr (by simp [regInitRole_idem])
    · rw [lookup_updateRole_other _ _ _ _ fun he => hxk he.symm]
      exact hb
  · intro b hb
    rw [lookup_updateRole_self]
    rcases hb with hb | hb
    · rw [hb]
      rfl
    · rw [hb]
      simp [regInitRole_idem]
  · intro b x _ hb
    by_cases hxk : x = k
    · subst hxk
      rw [lookup_updateRole_self, hb]
      simp [regInitRole_idem]
    · rw [lookup_updateRole_other _ _ _ _ fun he => hxk he.symm]
      exact hb


/-! ## C1: presence of `filename_reg` after `reg_series` -/

theorem bind_ok_inv {A B : Type} (x : Except String A) (f : A → Except String B)
    (b : B) (h : x >>= f = Except.ok b) : ∃ a, x = .ok a ∧ f a = .ok b := by
  cases x with
  | error e => exact absurd h (by simp [Bind.bind, Except.bind])
  | ok a => exact ⟨a, rfl, h⟩

theorem regInitRole_props (r : Role)
    (hnr : r.filename = none ∨ r.filename = some "None" ∨ truthyOpt r.reg = false) :
    (regInitRole r).reg = some (.b false) ∧
    (regInitRole r).filename_reg = (if r.filename = none then some "None" else r.filename) ∧
    (regInitRole r).transform = some "None" := by
  unfold regInitRole
  rcases hfn : r.filename with _ | fn
  · simp [hfn]
  · simp only [hfn, if_neg (by simp : ¬ (some fn = (none : Option String))), reduceIte]
    rcases hnr with h | h | h
    · exact absurd (hfn ▸ h) (by simp)
    · have : fn = "None" := by
        rw [hfn] at h
        exact Option.some.inj h
      subst this
      simp
    · simp [h, hfn]

theorem regInitRole_noop (r : Role) (fn : String) (hf : r.filename = some fn)
    (hne : fn ≠ "None") (ht : truthyOpt r.reg = true) : regInitRole r = r := by
  unfold regInitRole
  simp [hf, hne, ht]

theorem passFold_establish {α : Type} (step : α → String → Except String α)
    (P Q : α → Prop) (k : String) :
    ∀ (l : List String) (a res : α), passFold step l a = .ok res → k ∈ l → P a →
      (∀ b x b', x ∈ l → P b → step b x = .ok b' → P b') →
      (∀ b b', P b → step b k = .ok b' → Q b') →
      (∀ b x b', x ∈ l → Q b → step b x = .ok b' → Q b') →
      Q res := by
  intro l
  induction l with
  | nil => intro a res _ hk; exact absurd hk (by simp)
  | cons x xs ih =>
    intro a res h hk hP hPstep hPQ hQstep
    simp only [passFold] at h
    cases hs : step a x with
    | error e => rw [hs] at h; exact absurd h (by simp)
    | ok a1 =>
      rw [hs] at h
      by_cases hx : x = k
      · subst hx
        exact passFold_preserve step Q xs a1 res h (hPQ a a1 hP hs)
          (fun b y b' hy hb hsb => hQstep b y b' (by simp [hy]) hb hsb)
      · have hk' : k ∈ xs := by
          rcases List.mem_cons.mp hk with hh | hh
          · exact absurd hh.symm hx
          · exact hh
        exact ih a1 res h hk' (hPstep a x a1 (by simp) hP hs)
          (fun b y b' hy hb hsb => hPstep b y b' (by simp [hy]) hb hsb) hPQ
          (fun b y b' hy hb hsb => hQstep b y b' (by simp [hy]) hb hsb)

theorem geoStep_preserves_othermode (mode : GeoMode) (wd : String) (rep : Bool)
    (b b' : RegSt) (x k : String) (rk : Role)
    (hb : lookupRole b.dict k = some rk) (hne : rk.reg ≠ some (.s mode.str))
    (hs : geoStep mode wd rep b x = .ok b') :
    lookupRole b'.dict k = some rk := by
  unfold geoStep at hs
  cases hlx : lookupRole b.dict x with
  | none =>
    rw [hlx] at hs
    cases hs
    exact hb
  | some rx =>
    rw [hlx] at hs
    have hs2 : geoCore mode wd rep b x rx = .ok b' := hs
    by_cases hxk : x = k
    · subst hxk
      have hrx : rx = rk := by
        rw [hlx] at hb
        exact Option.some.inj hb
      subst hrx
      unfold geoCore at hs2
      rw [if_neg hne] at hs2
      cases hs2
      exact hb
    · rcases geoCore_dict_shape mode wd rep b x rx b' hs2 with hd | ⟨f, hd, _⟩
      · rw [hd]
        exact hb
      · rw [hd, lookup_updateRole_other _ _ _ _ fun he => hxk he.symm]
        exact hb

theorem geoStep_preserves_set (mode : GeoMode) (wd : String) (rep : Bool)
    (b b' : RegSt) (x k : String)
    (hb : ∃ rr v, lookupRole b.dict k = some rr ∧ rr.filename_reg = some v)
    (hs : geoStep mode wd rep b x = .ok b') :
    ∃ rr v, lookupRole b'.dict k = some rr ∧ rr.filename_reg = some v := by
  obtain ⟨rr, v, hbk, hv⟩ := hb
  unfold geoStep at hs
  cases hlx : lookupRole b.dict x with
  | none =>
    rw [hlx] at hs
    cases hs
    exact ⟨rr, v, hbk, hv⟩
  | some rx =>
    rw [hlx] at hs
    have hs2 : geoCore mode wd rep b x rx = .ok b' := hs
    rcases geoCore_dict_shape mode wd rep b x rx b' hs2 with hd | ⟨f, hd, hf⟩
    · rw [hd]
      exact ⟨rr, v, hbk, hv⟩
    · by_cases hxk : x = k
      · subst hxk
        obtain ⟨v2, hv2⟩ := (hf rr).1
        refine ⟨f rr, v2, ?_, hv2⟩
        rw [hd, lookup_updateRole_self, hbk]
        rfl
      · rw [hd, lookup_updateRole_other _ _ _ _ fun he => hxk he.symm]
        exact ⟨rr, v, hbk, hv⟩

theorem borrowStep_preserves_set (wd : String) (rep : Bool) (keys : List String)
    (b : RegSt) (x k : String)
    (hb : ∃ rr v, lookupRole b.dict k = some rr ∧ rr.filename_reg = some v) :
    ∃ rr v, lookupRole (borrowStep wd rep keys b x).dict k = some rr ∧
      rr.filename_reg = some v := by
  obtain ⟨rr, v, hbk, hv⟩ := hb
  unfold borrowStep
  cases hlx : lookupRole b.dict x with
  | none => exact ⟨rr, v, hbk, hv⟩
  | some rx =>
    show ∃ rr v, lookupRole (borrowCore wd rep keys b x rx).dict k = some rr ∧
      rr.filename_reg = some v
    rcases borrowCore_dict_shape wd rep keys b x rx with hd | ⟨f, hd, hf⟩
    · rw [hd]
      exact ⟨rr, v, hbk, hv⟩
    · by_cases hxk : x = k
      · subst hxk
        obtain ⟨v2, hv2⟩ := (hf rr).1
        refine ⟨f rr, v2, ?_, hv2⟩
        rw [hd, lookup_updateRole_self, hbk]
        rfl
      · rw [hd, lookup_updateRole_other _ _ _ _ fun he => hxk he.symm]
        exact ⟨rr, v, hbk, hv⟩

theorem geoPass_establish_set (mode : GeoMode) (wd : String) (rep : Bool)
    (keys : List String) (st st' : RegSt) (k : String) (rk : Role)
    (hg : mode.guarded = false) (hk : k ∈ keys)
    (hst : lookupRole st.dict k = some rk)
    (hreg : rk.reg = some (.s mode.str))
    (hpass : passFold (geoStep mode wd rep) keys st = .ok st') :
    ∃ rr v, lookupRole st'.dict k = some rr ∧ rr.filename_reg = some v := by
  refine passFold_establish (geoStep mode wd rep)
    (fun s => ∃ rr, lookupRole s.dict k = some rr ∧
      (rr.reg = some (.s mode.str) ∨ ∃ v, rr.filename_reg = some v))
    (fun s => ∃ rr v, lookupRole s.dict k = some rr ∧ rr.filename_reg = some v)
    k keys st st' hpass hk ⟨rk, hst, Or.inl hreg⟩ ?_ ?_ ?_
  · intro b x b' _ hb hs
    obtain ⟨rr, hbk, hcase⟩ := hb
    unfold geoStep at hs
    cases hlx : lookupRole b.dict x with
    | none =>
      rw [hlx] at hs
      cases hs
      exact ⟨rr, hbk, hcase⟩
    | some rx =>
      rw [hlx] at hs
      have hs2 : geoCore mode wd rep b x rx = .ok b' := hs
      rcases geoCore_dict_shape mode wd rep b x rx b' hs2 with hd | ⟨f, hd, hf⟩
      · rw [hd]
        exact ⟨rr, hbk, hcase⟩
      · by_cases hxk : x = k
        · subst hxk
          refine ⟨f rr, ?_, Or.inr (hf rr).1⟩
          rw [hd, lookup_updateRole_self, hbk]
          rfl
        · rw [hd, lookup_updateRole_other _ _ _ _ fun he => hxk he.symm]
          exact ⟨rr, hbk, hcase⟩
  · intro b b' hb hs
    obtain ⟨rr, hbk, hcase⟩ := hb
    rcases hcase with hregb | hset
    · unfold geoStep at hs
      rw [hbk] at hs
      have hs2 : geoCore mode wd rep b k rr = .ok b' := hs
      unfold geoCore at hs2
      rw [if_pos hregb] at hs2
      cases hres : resolveTemplate b.fs b.dict rr with
      | error e =>
        rw [hres] at hs2
        exact absurd hs2 (by simp)
      | ok tpl =>
        rw [hres] at hs2
        have hs3 : (if (mode.guarded &&
            !(isfile b.fs (movingOf rr).1 && isfile b.fs tpl)) = true then Except.ok b
            else Except.ok (geoRun mode wd rep b k (movingOf rr).1 (movingOf rr).2 tpl)) =
            Except.ok b' := hs2
        rw [if_neg (by simp [hg])] at hs3
        cases hs3
        have hlk : lookupRole
            (geoRun mode wd rep b k (movingOf rr).1 (movingOf rr).2 tpl).dict k =
            some { rr with
              filename_reg := some (antsApplyName wd (movingOf rr).2)
              transform := some (transName wd (movingOf rr).1 tpl) } := by
          rw [geoRun_dict, lookup_updateRole_self, hbk]
          rfl
        exact ⟨_, _, hlk, rfl⟩
    · obtain ⟨v, hv⟩ := hset
      exact geoStep_preserves_set mode wd rep b b' k k ⟨rr, v, hbk, hv⟩ hs
  · intro b x b' _ hb hs
    exact geoStep_preserves_set mode wd rep b b' x k hb hs

theorem regSeries_nonreg_filename_reg (wd : String) (rep : Bool) (fs : Fs) (d : Bundle)
    (k : String) (r : Role) (res : RegSt)
    (hl : lookupRole d k = some r)
    (hnr : r.filename = none ∨ r.filename = some "None" ∨ truthyOpt r.reg = false)
    (hrun : reg_series wd rep fs d = .ok res) :
    ∃ rr, lookupRole res.dict k = some rr ∧
      rr.filename_reg = (if r.filename = none then some "None" else r.filename) ∧
      rr.transform = some "None" := by
  have hk : k ∈ sortedKeysOf d := mem_sortedKeysOf d k (mem_keys_of_lookup d k r hl)
  have hinit : lookupRole (regInitPass d (sortedKeysOf d)) k = some (regInitRole r) :=
    regInitPass_lookup d (sortedKeysOf d) k r hk hl
  obtain ⟨hpr, hpf, hpt⟩ := regInitRole_props r hnr
  unfold reg_series at hrun
  obtain ⟨st1, h1, hrun⟩ := bind_ok_inv _ _ _ hrun
  obtain ⟨st2, h2, hrun⟩ := bind_ok_inv _ _ _ hrun
  obtain ⟨st3, h3, hrun⟩ := bind_ok_inv _ _ _ hrun
  obtain ⟨st4, h4, hrun⟩ := bind_ok_inv _ _ _ hrun
  obtain ⟨st5, h5, hrun⟩ := bind_ok_inv _ _ _ hrun
  obtain ⟨st6, h6, hrun⟩ := bind_ok_inv _ _ _ hrun
  have hres : res = borrowPass wd rep (sortedKeysOf d) st6 :=
    (Except.ok.inj hrun).symm
  have p0 : lookupRole (⟨fs, regInitPass d (sortedKeysOf d), []⟩ : RegSt).dict k =
      some (regInitRole r) := hinit
  have p1 := passFold_preserve (geoStep .trans wd rep)
    (fun s => lookupRole s.dict k = some (regInitRole r)) (sortedKeysOf d) _ st1 h1 p0
    (fun b x b' _ hb hs => geoStep_preserves_bfalse .trans wd rep b b' x k
      (regInitRole r) hb hpr hs)
  have p2 := passFold_preserve (geoStep .rigid wd rep)
    (fun s => lookupRole s.dict k = some (regInitRole r)) (sortedKeysOf d) _ st2 h2 p1
    (fun b x b' _ hb hs => geoStep_preserves_bfalse .rigid wd rep b b' x k
      (regInitRole r) hb hpr hs)
  have p3 := passFold_preserve (geoStep .affine wd rep)
    (fun s => lookupRole s.dict k = some (regInitRole r)) (sortedKeysOf d) _ st3 h3 p2
    (fun b x b' _ hb hs => geoStep_preserves_bfalse .affine wd rep b b' x k
      (regInitRole r) hb hpr hs)
  have p4 := passFold_preserve (geoStep .fast_affine wd rep)
    (fun s => lookupRole s.dict k = some (regInitRole r)) (sortedKeysOf d) _ st4 h4 p3
    (fun b x b' _ hb hs => geoStep_preserves_bfalse .fast_affine wd rep b b' x k
      (regInitRole r) hb hpr hs)
  have p5 := passFold_preserve (geoStep .diffeo wd rep)
    (fun s => lookupRole s.dict k = some (regInitRole r)) (sortedKeysOf d) _ st5 h5 p4
    (fun b x b' _ hb hs => geoStep_preserves_bfalse .diffeo wd rep b b' x k
      (regInitRole r) hb hpr hs)
  have p6 := passFold_preserve (geoStep .fast_diffeo wd rep)
    (fun s => lookupRole s.dict k = some (regInitRole r)) (sortedKeysOf d) _ st6 h6 p5
    (fun b x b' _ hb hs => geoStep_preserves_bfalse .fast_diffeo wd rep b b' x k
      (regInitRole r) hb hpr hs)
  have p7 : lookupRole (borrowPass wd rep (sortedKeysOf d) st6).dict k =
      some (regInitRole r) := by
    unfold borrowPass
    exact foldl_preserve (borrowStep wd rep (sortedKeysOf d))
      (fun s => lookupRole s.dict k = some (regInitRole r)) (sortedKeysOf d) st6 p6
      (fun b x _ hb => borrowStep_preserves_bfalse wd rep (sortedKeysOf d) b x k
        (regInitRole r) hb hpr)
  exact ⟨regInitRole r, hres ▸ p7, hpf, hpt⟩

theorem regSeries_unguarded_filename_reg (wd : String) (rep : Bool) (fs : Fs)
    (d : Bundle) (k : String) (r : Role) (res : RegSt) (mode : GeoMode)
    (hl : lookupRole d k = some r)
    (hm : mode = .trans ∨ mode = .rigid)
    (hreg : r.reg = some (.s mode.str))
    (hfn : ∃ fn, r.filename = some fn ∧ fn ≠ "None")
    (hrun : reg_series wd rep fs d = .ok res) :
    ∃ rr v, lookupRole res.dict k = some rr ∧ rr.filename_reg = some v := by
  obtain ⟨fn, hf, hne⟩ := hfn
  have ht : truthyOpt r.reg = true := by
    rcases hm with hm | hm <;> subst hm <;> rw [hreg] <;> decide
  have hnoop : regInitRole r = r := regInitRole_noop r fn hf hne ht
  have hk : k ∈ sortedKeysOf d := mem_sortedKeysOf d k (mem_keys_of_lookup d k r hl)
  have hinit : lookupRole (regInitPass d (sortedKeysOf d)) k = some r := by
    rw [regInitPass_lookup d (sortedKeysOf d) k r hk hl, hnoop]
  unfold reg_series at hrun
  obtain ⟨st1, h1, hrun⟩ := bind_ok_inv _ _ _ hrun
  obtain ⟨st2, h2, hrun⟩ := bind_ok_inv _ _ _ hrun
  obtain ⟨st3, h3, hrun⟩ := bind_ok_inv _ _ _ hrun
  obtain ⟨st4, h4, hrun⟩ := bind_ok_inv _ _ _ hrun
  obtain ⟨st5, h5, hrun⟩ := bind_ok_inv _ _ _ hrun
  obtain ⟨st6, h6, hrun⟩ := bind_ok_inv _ _ _ hrun
  have hres : res = borrowPass wd rep (sortedKeysOf d) st6 :=
    (Except.ok.inj hrun).symm
  have p0 : lookupRole (⟨fs, regInitPass d (sortedKeysOf d), []⟩ : RegSt).dict k =
      some r := hinit
  have q2 : ∃ rr v, lookupRole st2.dict k = some rr ∧ rr.filename_reg = some v := by
    rcases hm with hm | hm
    · subst hm
      have q1 := geoPass_establish_set .trans wd rep (sortedKeysOf d) _ st1 k r
        rfl hk p0 hreg h1
      exact passFold_preserve (geoStep .rigid wd rep)
        (fun s => ∃ rr v, lookupRole s.dict k = some rr ∧ rr.filename_reg = some v)
        (sortedKeysOf d) st1 st2 h2 q1
        (fun b x b' _ hb hs => geoStep_preserves_set .rigid wd rep b b' x k hb hs)
    · subst hm
      have p1 := passFold_preserve (geoStep .trans wd rep)
        (fun s => lookupRole s.dict k = some r) (sortedKeysOf d) _ st1 h1 p0
        (fun b x b' _ hb hs => geoStep_preserves_othermode .trans wd rep b b' x k r hb
          (by rw [hreg]; decide) hs)
      exact geoPass_establish_set .rigid wd rep (sortedKeysOf d) st1 st2 k r
        rfl hk p1 hreg h2
  have q3 := passFold_preserve (geoStep .affine wd rep)
    (fun s => ∃ rr v, lookupRole s.dict k = some rr ∧ rr.filename_reg = some v)
    (sortedKeysOf d) st2 st3 h3 q2
    (fun b x b' _ hb hs => geoStep_preserves_set .affine wd rep b b' x k hb hs)
  have q4 := passFold_preserve (geoStep .fast_affine wd rep)
    (fun s => ∃ rr v, lookupRole s.dict k = some rr ∧ rr.filename_reg = some v)
    (sortedKeysOf d) st3 st4 h4 q3
    (fun b x b' _ hb hs => geoStep_preserves_set .fast_affine wd rep b b' x k hb hs)
  have q5 := passFold_preserve (geoStep .diffeo wd rep)
    (fun s => ∃ rr v, lookupRole s.dict k = some rr ∧ rr.filename_reg = some v)
    (sortedKeysOf d) st4 st5 h5 q4
    (fun b x b' _ hb hs => geoStep_preserves_set .diffeo wd rep b b' x k hb hs)
  have q6 := passFold_preserve (geoStep .fast_diffeo wd rep)
    (fun s => ∃ rr v, lookupRole s.dict k = some rr ∧ rr.filename_reg = some v)
    (sortedKeysOf d) st5 st6 h6 q5
    (fun b x b' _ hb hs => geoStep_preserves_set .fast_diffeo wd rep b b' x k hb hs)
  have q7 : ∃ rr v, lookupRole (borrowPass wd rep (sortedKeysOf d) st6).dict k =
      some rr ∧ rr.filename_reg = some v := by
    unfold borrowPass
    exact foldl_preserve (borrowStep wd rep (sortedKeysOf d))
      (fun s => ∃ rr v, lookupRole s.dict k = some rr ∧ rr.filename_reg = some v)
      (sortedKeysOf d) st6 q6
      (fun b x _ hb => borrowStep_preserves_set wd rep (sortedKeysOf d) b x k hb)
  exact hres ▸ q7

/-- C1: amended.  After `reg_series`, `filename_reg` is present for every
role for which no registration was requested or no input file was found
(set to the unregistered filename, with the sentinel "None" standing in
for an absent filename), and for every role in an unguarded geometric mode
(trans, rigid).  The original claim fails for guarded geometric modes with
a missing moving or target file (see the counterexample): those roles are
skipped without any `filename_reg` being recorded. -/
theorem C1_filename_reg :
    (∀ (wd : String) (rep : Bool) (fs : Fs) (d : Bundle) (k : String) (r : Role)
      (res : RegSt), lookupRole d k = some r →
      (r.filename = none ∨ r.filename = some "None" ∨ truthyOpt r.reg = false) →
      reg_series wd rep fs d = .ok res →
      ∃ rr, lookupRole res.dict k = some rr ∧
        rr.filename_reg = (if r.filename = none then some "None" else r.filename) ∧
        rr.transform = some "None") ∧
    (∀ (wd : String) (rep : Bool) (fs : Fs) (d : Bundle) (k : String) (r : Role)
      (res : RegSt) (mode : GeoMode), lookupRole d k = some r →
      (mode = .trans ∨ mode = .rigid) → r.reg = some (.s mode.str) →
      (∃ fn, r.filename = some fn ∧ fn ≠ "None") →
      reg_series wd rep fs d = .ok res →
      ∃ rr v, lookupRole res.dict k = some rr ∧ rr.filename_reg = some v) := by
  constructor
  · intro wd rep fs d k r res hl hnr hrun
    exact regSeries_nonreg_filename_reg wd rep fs d k r res hl hnr hrun
  · intro wd rep fs d k r res mode hl hm hreg hfn hrun
    exact regSeries_unguarded_filename_reg wd rep fs d k r res mode hl hm hreg hfn hrun

/-- C1: counterexample to the original claim.  A role in the guarded
affine mode whose moving file is missing on disk (while the target exists)
finishes `reg_series` with no `filename_reg` recorded at all. -/
theorem C1_counterexample :
    (reg_series "/work" false ["/work/atlas.nii.gz"]
      [("T1", { filename := some "/work/case_T1.nii.gz", reg := some (.s "affine"),
                reg_target := some "/work/atlas.nii.gz" })]).map
      (fun st => (lookupRole st.dict "T1").map Role.filename_reg) =
      .ok (some none) := by
  decide

theorem C1_filename_reg_witness :
    ∃ res, reg_series "/w" false ["/w/atlas.nii.gz"]
        [("FLAIR", ({ filename := none } : Role)),
         ("T1", { filename := some "/w/case_T1.nii.gz", reg := some (.s "trans"),
                  reg_target := some "/w/atlas.nii.gz" })] = .ok res ∧
      (∃ rr, lookupRole res.dict "FLAIR" = some rr ∧
        rr.filename_reg = some "None" ∧ rr.transform = some "None") ∧
      (∃ rr v, lookupRole res.dict "T1" = some rr ∧ rr.filename_reg = some v) := by
  have hok : (match reg_series "/w" false ["/w/atlas.nii.gz"]
      [("FLAIR", ({ filename := none } : Role)),
       ("T1", { filename := some "/w/case_T1.nii.gz", reg := some (.s "trans"),
                reg_target := some "/w/atlas.nii.gz" })] with
    | .ok _ => true
    | .error _ => false) = true := by decide
  cases hres : reg_series "/w" false ["/w/atlas.nii.gz"]
      [("FLAIR", ({ filename := none } : Role)),
       ("T1", { filename := some "/w/case_T1.nii.gz", reg := some (.s "trans"),
                reg_target := some "/w/atlas.nii.gz" })] with
  | error e =>
    rw [hres] at hok
    exact absurd hok (by simp)
  | ok res =>
    refine ⟨res, rfl, ?_, ?_⟩
    · obtain ⟨rr, ha, hb, hc⟩ := C1_filename_reg.1 "/w" false ["/w/atlas.nii.gz"] _
        "FLAIR" { filename := none } res (by decide) (Or.inl rfl) hres
      exact ⟨rr, ha, hb, hc⟩
    · exact C1_filename_reg.2 "/w" false ["/w/atlas.nii.gz"] _ "T1"
        { filename := some "/w/case_T1.nii.gz", reg := some (.s "trans"),
          reg_target := some "/w/atlas.nii.gz" } res .trans (by decide)
        (Or.inl rfl) rfl ⟨"/w/case_T1.nii.gz", rfl, by decide⟩ hres


/-! ## C4: missing-file handling in the geometric registration loops -/

theorem geoCore_guard_skip (mode : GeoMode) (wd : String) (rep : Bool) (st : RegSt)
    (ser : String) (r : Role) (tpl : String)
    (hg : mode.guarded = true)
    (hreg : r.reg = some (.s mode.str))
    (hres : resolveTemplate st.fs st.dict r = .ok tpl)
    (hmiss : (isfile st.fs (movingOf r).1 && isfile st.fs tpl) = false) :
    geoCore mode wd rep st ser r = .ok st := by
  unfold geoCore
  rw [if_pos hreg, hres]
  show (if (mode.guarded && !(isfile st.fs (movingOf r).1 && isfile st.fs tpl)) = true
      then Except.ok st
      else Except.ok (geoRun mode wd rep st ser (movingOf r).1 (movingOf r).2 tpl)) =
    Except.ok st
  rw [if_pos (by rw [hg, hmiss]; rfl)]

theorem geoCore_unguarded_run (mode : GeoMode) (wd : String) (rep : Bool) (st : RegSt)
    (ser : String) (r : Role) (tpl : String)
    (hg : mode.guarded = false)
    (hreg : r.reg = some (.s mode.str))
    (hres : resolveTemplate st.fs st.dict r = .ok tpl) :
    geoCore mode wd rep st ser r =
      .ok (geoRun mode wd rep st ser (movingOf r).1 (movingOf r).2 tpl) := by
  unfold geoCore
  rw [if_pos hreg, hres]
  show (if (mode.guarded && !(isfile st.fs (movingOf r).1 && isfile st.fs tpl)) = true
      then Except.ok st
      else Except.ok (geoRun mode wd rep st ser (movingOf r).1 (movingOf r).2 tpl)) =
    Except.ok (geoRun mode wd rep st ser (movingOf r).1 (movingOf r).2 tpl)
  rw [if_neg (by rw [hg]; simp)]

/-- C4: amended.  Only the four guarded geometric modes (affine,
fast_affine, diffeo, fast_diffeo) skip a role whose moving or resolved
target file is missing on disk; the skip leaves the state unchanged,
returns successfully, and lets the pass continue with the remaining
roles.  The trans and rigid loops have no such file check: they proceed
to register regardless of whether the files exist (see the
counterexample). -/
theorem C4_missing_file_skip :
    (∀ (mode : GeoMode) (wd : String) (rep : Bool) (st : RegSt) (ser : String)
      (r : Role) (tpl : String), mode.guarded = true →
      r.reg = some (.s mode.str) →
      resolveTemplate st.fs st.dict r = .ok tpl →
      (isfile st.fs (movingOf r).1 && isfile st.fs tpl) = false →
      geoCore mode wd rep st ser r = .ok st) ∧
    (∀ (mode : GeoMode) (wd : String) (rep : Bool) (st : RegSt) (ser : String)
      (rest : List String) (r : Role) (tpl : String), mode.guarded = true →
      lookupRole st.dict ser = some r →
      r.reg = some (.s mode.str) →
      resolveTemplate st.fs st.dict r = .ok tpl →
      (isfile st.fs (movingOf r).1 && isfile st.fs tpl) = false →
      passFold (geoStep mode wd rep) (ser :: rest) st =
        passFold (geoStep mode wd rep) rest st) ∧
    (∀ (mode : GeoMode) (wd : String) (rep : Bool) (st : RegSt) (ser : String)
      (r : Role) (tpl : String), mode.guarded = false →
      r.reg = some (.s mode.str) →
      resolveTemplate st.fs st.dict r = .ok tpl →
      geoCore mode wd rep st ser r =
        .ok (geoRun mode wd rep st ser (movingOf r).1 (movingOf r).2 tpl)) := by
  refine ⟨?_, ?_, ?_⟩
  · intro mode wd rep st ser r tpl hg hreg hres hmiss
    exact geoCore_guard_skip mode wd rep st ser r tpl hg hreg hres hmiss
  · intro mode wd rep st ser rest r tpl hg hlk hreg hres hmiss
    have hstep : geoStep mode wd rep st ser = .ok st := by
      unfold geoStep
      rw [hlk]
      exact geoCore_guard_skip mode wd rep st ser r tpl hg hreg hres hmiss
    simp only [passFold, hstep]
  · intro mode wd rep st ser r tpl hg hreg hres
    exact geoCore_unguarded_run mode wd rep st ser r tpl hg hreg hres

/-- C4: counterexample to the original claim.  A role in the (unguarded)
trans mode whose moving file is missing on disk is not skipped: the
registration engine is invoked and a transform is recorded. -/
theorem C4_counterexample :
    (reg_series "/work" false ["/work/atlas.nii.gz"]
      [("T1", { filename := some "/work/case_T1.nii.gz", reg := some (.s "trans"),
                reg_target := some "/work/atlas.nii.gz" })]).map
      (fun st => ((lookupRole st.dict "T1").map Role.transform, st.calls)) =
      .ok (some (some "/work/case_T1_2_atlas_Composite.h5"),
        [.applyRun "/work/case_T1.nii.gz" "/work/atlas.nii.gz"
           "/work/case_T1_2_atlas_Composite.h5" "/work/case_T1_w.nii.gz",
         .regRun "trans" "/work/case_T1.nii.gz" "/work/atlas.nii.gz"
           "/work/case_T1_2_atlas_Composite.h5"]) := by
  decide

theorem C4_missing_file_skip_witness :
    geoCore .affine "/work" false
        ⟨["/work/atlas.nii.gz"],
         [("T1", { filename := some "/work/case_T1.nii.gz", reg := some (.s "affine"),
                   reg_target := some "/work/atlas.nii.gz" })], []⟩ "T1"
        { filename := some "/work/case_T1.nii.gz", reg := some (.s "affine"),
          reg_target := some "/work/atlas.nii.gz" } =
      .ok ⟨["/work/atlas.nii.gz"],
         [("T1", { filename := some "/work/case_T1.nii.gz", reg := some (.s "affine"),
                   reg_target := some "/work/atlas.nii.gz" })], []⟩ ∧
    passFold (geoStep .affine "/work" false) ["T1"]
        ⟨["/work/atlas.nii.gz"],
         [("T1", { filename := some "/work/case_T1.nii.gz", reg := some (.s "affine"),
                   reg_target := some "/work/atlas.nii.gz" })], []⟩ =
      passFold (geoStep .affine "/work" false) []
        ⟨["/work/atlas.nii.gz"],
         [("T1", { filename := some "/work/case_T1.nii.gz", reg := some (.s "affine"),
                   reg_target := some "/work/atlas.nii.gz" })], []⟩ ∧
    geoCore .trans "/work" false
        ⟨["/work/atlas.nii.gz"],
         [("T1", { filename := some "/work/case_T1.nii.gz", reg := some (.s "trans"),
                   reg_target := some "/work/atlas.nii.gz" })], []⟩ "T1"
        { filename := some "/work/case_T1.nii.gz", reg := some (.s "trans"),
          reg_target := some "/work/atlas.nii.gz" } =
      .ok (geoRun .trans "/work" false
        ⟨["/work/atlas.nii.gz"],
         [("T1", { filename := some "/work/case_T1.nii.gz", reg := some (.s "trans"),
                   reg_target := some "/work/atlas.nii.gz" })], []⟩ "T1"
        "/work/case_T1.nii.gz" "/work/case_T1.nii.gz" "/work/atlas.nii.gz") := by
  refine ⟨C4_missing_file_skip.1 .affine "/work" false _ "T1"
      { filename := some "/work/case_T1.nii.gz", reg := some (.s "affine"),
        reg_target := some "/work/atlas.nii.gz" } "/work/atlas.nii.gz"
      rfl rfl (by decide) (by decide),
    C4_missing_file_skip.2.1 .affine "/work" false _ "T1" []
      { filename := some "/work/case_T1.nii.gz", reg := some (.s "affine"),
        reg_target := some "/work/atlas.nii.gz" } "/work/atlas.nii.gz"
      rfl (by decide) rfl (by decide) (by decide),
    C4_missing_file_skip.2.2 .trans "/work" false _ "T1"
      { filename := some "/work/case_T1.nii.gz", reg := some (.s "trans"),
        reg_target := some "/work/atlas.nii.gz" } "/work/atlas.nii.gz"
      rfl rfl (by decide)⟩


/-! ## C3: exact reuse of a borrowed transform -/

theorem borrowStep_lookup_other (wd : String) (rep : Bool) (keys : List String)
    (b : RegSt) (x k : String) (hxk : x ≠ k) :
    lookupRole (borrowStep wd rep keys b x).dict k = lookupRole b.dict k := by
  unfold borrowStep
  cases hlx : lookupRole b.dict x with
  | none => rfl
  | some rx =>
    show lookupRole (borrowCore wd rep keys b x rx).dict k = lookupRole b.dict k
    rcases borrowCore_dict_shape wd rep keys b x rx with hd | ⟨f, hd, _⟩
    · rw [hd]
    · rw [hd, lookup_updateRole_other _ _ _ _ fun he => hxk he.symm]

theorem borrowStep_stable (wd : String) (rep : Bool) (keys : List String)
    (b : RegSt) (x : String) (rA : Role)
    (hlA : lookupRole b.dict x = some rA)
    (hstable : ∀ m, rA.reg = some (.s m) → keys.contains m = false) :
    borrowStep wd rep keys b x = b := by
  unfold borrowStep
  rw [hlA]
  show borrowCore wd rep keys b x rA = b
  unfold borrowCore
  cases hreg : rA.reg with
  | none => rfl
  | some rv =>
    cases rv with
    | b bv => rfl
    | s m =>
      show borrowTry wd rep keys b x m rA.filename = b
      unfold borrowTry
      rw [if_neg (by rw [hstable m hreg]; simp)]

theorem borrowStep_borrows (wd : String) (rep : Bool) (keys : List String)
    (st : RegSt) (A B : String) (rA rB : Role) (t fr mov : String)
    (hlB : lookupRole st.dict B = some rB) (hreg : rB.reg = some (.s A))
    (hmem : keys.contains A = true) (hlA : lookupRole st.dict A = some rA)
    (htr : rA.transform = some t) (hfr : rA.filename_reg = some fr)
    (hmv : rB.filename = some mov) :
    borrowStep wd rep keys st B = borrowRun wd rep st B mov fr t := by
  unfold borrowStep
  rw [hlB]
  show borrowCore wd rep keys st B rB = borrowRun wd rep st B mov fr t
  unfold borrowCore
  rw [hreg]
  show borrowTry wd rep keys st B A rB.filename = borrowRun wd rep st B mov fr t
  unfold borrowTry
  rw [if_pos hmem, hlA]
  show borrowApply wd rep st B rA.transform rA.filename_reg rB.filename =
    borrowRun wd rep st B mov fr t
  rw [htr, hfr, hmv]
  rfl

theorem borrowStep_at_B (wd : String) (rep : Bool) (keys : List String)
    (b : RegSt) (A B : String) (rA rb : Role) (t fr mov : String)
    (hAB : A ≠ B)
    (hlA : lookupRole b.dict A = some rA) (htr : rA.transform = some t)
    (hfr : rA.filename_reg = some fr)
    (hlB : lookupRole b.dict B = some rb) (hreg : rb.reg = some (.s A))
    (hmv : rb.filename = some mov) (hmem : keys.contains A = true) :
    lookupRole (borrowStep wd rep keys b B).dict A = some rA ∧
    lookupRole (borrowStep wd rep keys b B).dict B =
      some { rb with filename_reg := some (antsApplyName wd mov),
                     transform := some t } := by
  rw [borrowStep_borrows wd rep keys b A B rA rb t fr mov hlB hreg hmem hlA htr hfr hmv]
  constructor
  · rw [borrowRun_dict, lookup_updateRole_other _ _ _ _ hAB]
    exact hlA
  · rw [borrowRun_dict, lookup_updateRole_self, hlB]
    rfl

theorem borrowPass_borrow_final (wd : String) (rep : Bool) (keys : List String)
    (st : RegSt) (A B : String) (rA rB : Role) (t fr mov : String)
    (hAB : A ≠ B) (hBk : B ∈ keys) (hmem : keys.contains A = true)
    (hlA : lookupRole st.dict A = some rA)
    (hstable : ∀ m, rA.reg = some (.s m) → keys.contains m = false)
    (htr : rA.transform = some t) (hfr : rA.filename_reg = some fr)
    (hlB : lookupRole st.dict B = some rB) (hreg : rB.reg = some (.s A))
    (hmv : rB.filename = some mov) :
    lookupRole (borrowPass wd rep keys st).dict A = some rA ∧
    ∃ rb, lookupRole (borrowPass wd rep keys st).dict B = some rb ∧
      rb.transform = some t ∧ rb.filename_reg = some (antsApplyName wd mov) := by
  unfold borrowPass
  have h := foldl_establish (borrowStep wd rep keys)
    (fun s => lookupRole s.dict A = some rA ∧ ∃ rb, lookupRole s.dict B = some rb ∧
      rb.reg = some (.s A) ∧ rb.filename = some mov)
    (fun s => lookupRole s.dict A = some rA ∧ ∃ rb, lookupRole s.dict B = some rb ∧
      rb.transform = some t ∧ rb.filename_reg = some (antsApplyName wd mov) ∧
      rb.reg = some (.s A) ∧ rb.filename = some mov)
    B keys st hBk ⟨hlA, rB, hlB, hreg, hmv⟩ ?_ ?_ ?_
  · exact ⟨h.1, h.2.choose, h.2.choose_spec.1, h.2.choose_spec.2.1, h.2.choose_spec.2.2.1⟩
  · intro b x _ hb
    obtain ⟨hA, rb, hB, hrg, hfn⟩ := hb
    by_cases hxB : x = B
    · subst hxB
      obtain ⟨h1, h2⟩ := borrowStep_at_B wd rep keys b A x rA rb t fr mov
        hAB hA htr hfr hB hrg hfn hmem
      exact ⟨h1, _, h2, hrg, hfn⟩
    · by_cases hxA : x = A
      · subst hxA
        rw [borrowStep_stable wd rep keys b x rA hA hstable]
        exact ⟨hA, rb, hB, hrg, hfn⟩
      · exact ⟨by rw [borrowStep_lookup_other wd rep keys b x A hxA]; exact hA,
          rb, by rw [borrowStep_lookup_other wd rep keys b x B hxB]; exact hB, hrg, hfn⟩
  · intro b hb
    obtain ⟨hA, rb, hB, hrg, hfn⟩ := hb
    obtain ⟨h1, h2⟩ := borrowStep_at_B wd rep keys b A B rA rb t fr mov
      hAB hA htr hfr hB hrg hfn hmem
    exact ⟨h1, _, h2, rfl, rfl, hrg, hfn⟩
  · intro b x _ hb
    obtain ⟨hA, rb, hB, htb, hfb, hrg, hfn⟩ := hb
    by_cases hxB : x = B
    · subst hxB
      obtain ⟨h1, h2⟩ := borrowStep_at_B wd rep keys b A x rA rb t fr mov
        hAB hA htr hfr hB hrg hfn hmem
      exact ⟨h1, _, h2, rfl, rfl, hrg, hfn⟩
    · by_cases hxA : x = A
      · subst hxA
        rw [borrowStep_stable wd rep keys b x rA hA hstable]
        exact ⟨hA, rb, hB, htb, hfb, hrg, hfn⟩
      · exact ⟨by rw [borrowStep_lookup_other wd rep keys b x A hxA]; exact hA,
          rb, by rw [borrowStep_lookup_other wd rep keys b x B hxB]; exact hB,
          htb, hfb, hrg, hfn⟩

theorem ants_apply1_calls (st : RegSt) (wd m ref trn : String) (rep : Bool) :
    ∀ c ∈ (ants_apply1 st wd m ref trn rep).1.calls,
      c ∈ st.calls ∨ ∃ a b d e, c = Call.applyRun a b d e := by
  unfold ants_apply1
  by_cases h : (!(isfile st.fs (antsApplyName wd m)) || rep) = true
  · simp only [h, if_true]
    intro c hc
    rcases List.mem_cons.mp hc with hc | hc
    · exact Or.inr ⟨_, _, _, _, hc⟩
    · exact Or.inl hc
  · simp only [h, if_false]
    exact fun c hc => Or.inl hc

theorem borrowRun_calls (wd : String) (rep : Bool) (st : RegSt)
    (ser mov tpl trn : String) :
    ∀ c ∈ (borrowRun wd rep st ser mov tpl trn).calls,
      c ∈ st.calls ∨ ∃ a b d e, c = Call.applyRun a b d e := by
  exact ants_apply1_calls st wd mov tpl trn rep

theorem borrowApply_calls (wd : String) (rep : Bool) (st : RegSt) (ser : String)
    (tr fr mv : Option String) :
    ∀ c ∈ (borrowApply wd rep st ser tr fr mv).calls,
      c ∈ st.calls ∨ ∃ a b d e, c = Call.applyRun a b d e := by
  unfold borrowApply
  cases tr with
  | none => cases fr <;> cases mv <;> exact fun c hc => Or.inl hc
  | some trn =>
    cases fr with
    | none => cases mv <;> exact fun c hc => Or.inl hc
    | some tpl =>
      cases mv with
      | none => exact fun c hc => Or.inl hc
      | some mov => exact borrowRun_calls wd rep st ser mov tpl trn

theorem borrowTry_calls (wd : String) (rep : Bool) (keys : List String)
    (st : RegSt) (ser m : String) (rFilename : Option String) :
    ∀ c ∈ (borrowTry wd rep keys st ser m rFilename).calls,
      c ∈ st.calls ∨ ∃ a b d e, c = Call.applyRun a b d e := by
  unfold borrowTry
  by_cases hmem : keys.contains m = true
  · rw [if_pos hmem]
    cases lookupRole st.dict m with
    | none => exact fun c hc => Or.inl hc
    | some ra =>
      show ∀ c ∈ (borrowApply wd rep st ser ra.transform ra.filename_reg rFilename).calls,
        c ∈ st.calls ∨ ∃ a b d e, c = Call.applyRun a b d e
      exact borrowApply_calls wd rep st ser ra.transform ra.filename_reg rFilename
  · rw [if_neg hmem]
    exact fun c hc => Or.inl hc

theorem borrowStep_calls (wd : String) (rep : Bool) (keys : List String)
    (b : RegSt) (x : String) :
    ∀ c ∈ (borrowStep wd rep keys b x).calls,
      c ∈ b.calls ∨ ∃ a b2 d e, c = Call.applyRun a b2 d e := by
  unfold borrowStep
  cases hlx : lookupRole b.dict x with
  | none => exact fun c hc => Or.inl hc
  | some rx =>
    show ∀ c ∈ (borrowCore wd rep keys b x rx).calls,
      c ∈ b.calls ∨ ∃ a b2 d e, c = Call.applyRun a b2 d e
    unfold borrowCore
    cases hreg : rx.reg with
    | none => exact fun c hc => Or.inl hc
    | some rv =>
      cases rv with
      | b bv => exact fun c hc => Or.inl hc
      | s m =>
        show ∀ c ∈ (borrowTry wd rep keys b x m rx.filename).calls,
          c ∈ b.calls ∨ ∃ a b2 d e, c = Call.applyRun a b2 d e
        exact borrowTry_calls wd rep keys b x m rx.filename

theorem borrowPass_no_regRun (wd : String) (rep : Bool) (keys : List String)
    (st : RegSt) :
    ∀ c ∈ (borrowPass wd rep keys st).calls,
      c ∈ st.calls ∨ ∃ a b d e, c = Call.applyRun a b d e := by
  unfold borrowPass
  refine foldl_preserve (borrowStep wd rep keys)
    (fun s => ∀ c ∈ s.calls, c ∈ st.calls ∨ ∃ a b d e, c = Call.applyRun a b d e)
    keys st (fun c hc => Or.inl hc) ?_
  intro b x _ hb c hc
  rcases borrowStep_calls wd rep keys b x c hc with h | h
  · exact hb c h
  · exact Or.inr h

/-- C3: confirmed.  If role B's "reg" value names role A, A is among the
processed keys and holds a cached transform and registered file, then B's
iteration of the borrow loop is exactly an application of A's cached
transform (same path `t`, with A's registered file as reference) to B's
filename; at the end of the loop B's recorded transform equals A's handle
`t` exactly and B's registered filename is the warped output of its own
filename, A's entry being left untouched; and the borrow loop never
invokes the registration engine (every external call it adds is a
transform application). -/
theorem C3_transform_borrow :
    (∀ (wd : String) (rep : Bool) (keys : List String) (st : RegSt)
      (A B : String) (rA rB : Role) (t fr mov : String),
      lookupRole st.dict B = some rB → rB.reg = some (.s A) →
      keys.contains A = true → lookupRole st.dict A = some rA →
      rA.transform = some t → rA.filename_reg = some fr → rB.filename = some mov →
      borrowStep wd rep keys st B = borrowRun wd rep st B mov fr t) ∧
    (∀ (wd : String) (rep : Bool) (keys : List String) (st : RegSt)
      (A B : String) (rA rB : Role) (t fr mov : String),
      A ≠ B → B ∈ keys → keys.contains A = true →
      lookupRole st.dict A = some rA →
      (∀ m, rA.reg = some (.s m) → keys.contains m = false) →
      rA.transform = some t → rA.filename_reg = some fr →
      lookupRole st.dict B = some rB → rB.reg = some (.s A) →
      rB.filename = some mov →
      lookupRole (borrowPass wd rep keys st).dict A = some rA ∧
      ∃ rb, lookupRole (borrowPass wd rep keys st).dict B = some rb ∧
        rb.transform = some t ∧ rb.filename_reg = some (antsApplyName wd mov)) ∧
    (∀ (wd : String) (rep : Bool) (keys : List String) (st : RegSt) (c : Call),
      c ∈ (borrowPass wd rep keys st).calls →
      c ∈ st.calls ∨ ∃ a b d e, c = Call.applyRun a b d e) := by
  refine ⟨?_, ?_, ?_⟩
  · intro wd rep keys st A B rA rB t fr mov hlB hreg hmem hlA htr hfr hmv
    exact borrowStep_borrows wd rep keys st A B rA rB t fr mov hlB hreg hmem hlA htr hfr hmv
  · intro wd rep keys st A B rA rB t fr mov hAB hBk hmem hlA hstable htr hfr hlB hreg hmv
    exact borrowPass_borrow_final wd rep keys st A B rA rB t fr mov
      hAB hBk hmem hlA hstable htr hfr hlB hreg hmv
  · intro wd rep keys st c hc
    exact borrowPass_no_regRun wd rep keys st c hc

theorem C3_transform_borrow_witness :
    borrowStep "/w" false ["ANAT", "T1"]
        ⟨["/w/anat_w.nii.gz"],
         [("ANAT", { reg := some (.s "affine"),
                     filename_reg := some "/w/anat_w.nii.gz",
                     transform := some "/w/anat_2_atlas_Composite.h5" }),
          ("T1", { reg := some (.s "ANAT"),
                   filename := some "/w/case_T1.nii.gz" })], []⟩ "T1" =
      borrowRun "/w" false
        ⟨["/w/anat_w.nii.gz"],
         [("ANAT", { reg := some (.s "affine"),
                     filename_reg := some "/w/anat_w.nii.gz",
                     transform := some "/w/anat_2_atlas_Composite.h5" }),
          ("T1", { reg := some (.s "ANAT"),
                   filename := some "/w/case_T1.nii.gz" })], []⟩ "T1"
        "/w/case_T1.nii.gz" "/w/anat_w.nii.gz" "/w/anat_2_atlas_Composite.h5" ∧
    (lookupRole (borrowPass "/w" false ["ANAT", "T1"]
        ⟨["/w/anat_w.nii.gz"],
         [("ANAT", { reg := some (.s "affine"),
                     filename_reg := some "/w/anat_w.nii.gz",
                     transform := some "/w/anat_2_atlas_Composite.h5" }),
          ("T1", { reg := some (.s "ANAT"),
                   filename := some "/w/case_T1.nii.gz" })], []⟩).dict "ANAT" =
      some { reg := some (.s "affine"),
             filename_reg := some "/w/anat_w.nii.gz",
             transform := some "/w/anat_2_atlas_Composite.h5" } ∧
      ∃ rb, lookupRole (borrowPass "/w" false ["ANAT", "T1"]
        ⟨["/w/anat_w.nii.gz"],
         [("ANAT", { reg := some (.s "affine"),
                     filename_reg := some "/w/anat_w.nii.gz",
                     transform := some "/w/anat_2_atlas_Composite.h5" }),
          ("T1", { reg := some (.s "ANAT"),
                   filename := some "/w/case_T1.nii.gz" })], []⟩).dict "T1" =
          some rb ∧
        rb.transform = some "/w/anat_2_atlas_Composite.h5" ∧
        rb.filename_reg = some (antsApplyName "/w" "/w/case_T1.nii.gz")) ∧
    (Call.applyRun "/w/case_T1.nii.gz" "/w/anat_w.nii.gz"
        "/w/anat_2_atlas_Composite.h5" "/w/case_T1_w.nii.gz" ∈
        (⟨["/w/anat_w.nii.gz"],
          [("ANAT", { reg := some (.s "affine"),
                      filename_reg := some "/w/anat_w.nii.gz",
                      transform := some "/w/anat_2_atlas_Composite.h5" }),
           ("T1", { reg := some (.s "ANAT"),
                    filename := some "/w/case_T1.nii.gz" })], []⟩ : RegSt).calls ∨
      ∃ a b d e, Call.applyRun "/w/case_T1.nii.gz" "/w/anat_w.nii.gz"
        "/w/anat_2_atlas_Composite.h5" "/w/case_T1_w.nii.gz" =
        Call.applyRun a b d e) := by
  refine ⟨C3_transform_borrow.1 "/w" false ["ANAT", "T1"] _ "ANAT" "T1"
      { reg := some (.s "affine"), filename_reg := some "/w/anat_w.nii.gz",
        transform := some "/w/anat_2_atlas_Composite.h5" }
      { reg := some (.s "ANAT"), filename := some "/w/case_T1.nii.gz" }
      "/w/anat_2_atlas_Composite.h5" "/w/anat_w.nii.gz" "/w/case_T1.nii.gz"
      (by decide) rfl (by decide) (by decide) rfl rfl rfl,
    C3_transform_borrow.2.1 "/w" false ["ANAT", "T1"] _ "ANAT" "T1"
      { reg := some (.s "affine"), filename_reg := some "/w/anat_w.nii.gz",
        transform := some "/w/anat_2_atlas_Composite.h5" }
      { reg := some (.s "ANAT"), filename := some "/w/case_T1.nii.gz" }
      "/w/anat_2_atlas_Composite.h5" "/w/anat_w.nii.gz" "/w/case_T1.nii.gz"
      (by decide) (by decide) (by decide) (by decide)
      (fun m hm => by simp at hm; subst hm; decide)
      rfl rfl (by decide) rfl rfl,
    C3_transform_borrow.2.2 "/w" false ["ANAT", "T1"] _ _ (by decide)⟩

end BreastPrep
